import Mathlib

/-!
Verification of the rsx template-body core (packages/rsx) against its
natural-language specification.

The development shallowly embeds the data model and the operations of
`body.rs`, `node/element.rs`, `node/component.rs` and `diagnostics.rs`.
Types that live in files of the repository outside the sampled sources
(the attribute model of `attribute.rs`, `IfmtInput`, `CallerLocation`)
are modelled from the spec; each such definition carries a doc comment
saying so.

Machine integers: the source stores path entries as `u8` via `idx as u8`;
we model that cast as `% 256` on `Nat`.  Mutable `Cell<usize>` slot
indices are modelled as `Option Nat` fields written by the indexing pass
(the pass returns the updated tree).
-/

/-- Modelled from the spec: an opaque externally-typed Rust expression
(`syn::Expr`).  The core never inspects expressions, so an opaque tag
suffices. -/
structure Expr where
  tag : Nat
deriving DecidableEq, Repr

/-- Modelled from the spec: one segment of a formatted string — either a
literal piece or an interpolated (dynamic) piece. -/
inductive Segment where
  | literal (s : String)
  | interpolated (s : String)
deriving DecidableEq, Repr

/-- Modelled from the spec: `IfmtInput`, a formatted-string value; it is
static iff it contains no interpolated segment. -/
structure IfmtInput where
  segments : List Segment
deriving DecidableEq, Repr

/-- Modelled from the spec: a text value is classified static iff it has
zero interpolated segments. -/
def IfmtInput.is_static (v : IfmtInput) : Bool :=
  v.segments.all fun s =>
    match s with
    | .literal _ => true
    | .interpolated _ => false

/-- `ElementName` from `node/element.rs`: a known built-in identifier or a
custom (dash-joined) string. -/
inductive ElementName where
  | ident (s : String)
  | custom (s : String)
deriving DecidableEq, Repr

/-- `ElementAttrName` (modelled from the spec; lives in the attribute
model outside the sampled sources): built-in identifier or custom string
literal name. -/
inductive ElementAttrName where
  | builtIn (s : String)
  | custom (s : String)
deriving DecidableEq, Repr

/-- `ElementAttrValue` (modelled from the spec): a literal/formatted
string, a raw expression, an event handler expression, or a shorthand
reference. -/
inductive ElementAttrValue where
  | attrLiteral (v : IfmtInput)
  | attrExpr (e : Expr)
  | eventTokens (e : Expr)
  | shorthand (s : String)
deriving DecidableEq, Repr

/-- `ElementAttr`: name plus value. -/
structure ElementAttr where
  name : ElementAttrName
  value : ElementAttrValue
deriving DecidableEq, Repr

/-- `ElementAttrNamed`: an attribute together with the element name it
was declared on. -/
structure ElementAttrNamed where
  el_name : ElementName
  attr : ElementAttr
deriving DecidableEq, Repr

/-- `AttributeType` from the element model: a named attribute or a spread
of a map-like expression. -/
inductive AttributeType where
  | named (n : ElementAttrNamed)
  | spread (e : Expr)
deriving DecidableEq, Repr

/-- The resolved name of an attribute; a spread has none. -/
def AttributeType.attrNameOf : AttributeType → Option ElementAttrName
  | .named n => some n.attr.name
  | .spread _ => none

/-- Modelled from the spec: `AttributeType::matches_attr_name` (attribute
model outside the sampled sources).  Two attributes match iff they
resolve to the same name; a spread never matches anything. -/
def AttributeType.matches_attr_name (a b : AttributeType) : Bool :=
  match a.attrNameOf, b.attrNameOf with
  | some n1, some n2 => decide (n1 = n2)
  | _, _ => false

/-- Modelled from the spec: `AttributeType::is_static_str_literal` — an
attribute is static iff it is a named attribute whose value is a literal
formatted string with no interpolation. -/
def AttributeType.is_static_str_literal : AttributeType → Bool
  | .named n =>
    match n.attr.value with
    | .attrLiteral v => v.is_static
    | _ => false
  | .spread _ => false

/-- Modelled from the spec: `AttributeType::try_combine` — combination is
defined per value-kind pair; two static string fragments with the same
name concatenate; every other pair does not combine (first-wins). -/
def AttributeType.try_combine (a b : AttributeType) : Option AttributeType :=
  match a, b with
  | .named ⟨en, ⟨n1, .attrLiteral v1⟩⟩, .named ⟨_, ⟨n2, .attrLiteral v2⟩⟩ =>
    if n1 = n2 then
      if v1.is_static && v2.is_static then
        some (.named ⟨en, ⟨n1, .attrLiteral ⟨v1.segments ++ v2.segments⟩⟩⟩)
      else none
    else none
  | _, _ => none

/-- One step of the attribute-merge loop of `Element::parse`
(element.rs, lines 216-233): find the first already-merged attribute with
a matching name; if found, try to combine (replacing in place on
success, keeping the existing entry otherwise); if not found, append. -/
def mergeOne (merged : List AttributeType) (attr : AttributeType) : List AttributeType :=
  match merged.findIdx? (fun a => a.matches_attr_name attr) with
  | some i =>
    match merged.get? i with
    | some old =>
      match old.try_combine attr with
      | some combined => merged.set i combined
      | none => merged
    | none => merged
  | none => merged ++ [attr]

/-- The attribute-merge pass of `Element::parse`: fold every declared
attribute into the merged cache in declaration order. -/
def mergeAttributes (attrs : List AttributeType) : List AttributeType :=
  attrs.foldl mergeOne []

/-- `AttributeName` of the component field model (modelled from the
spec; lives in the attribute model outside the sampled sources): a known
(built-in) identifier, a custom string name, or the `..` spread marker.
`syn::Ident` equality is by its string. -/
inductive AttributeName where
  | known (s : String)
  | custom (s : String)
  | spreadDots
deriving DecidableEq, Repr

/-- `AttributeValue` of the component field model (modelled from the
spec): a formatted string, a spread expression, a raw expression, an
event handler, or a shorthand reference. -/
inductive AttributeValue where
  | attrIfmt (v : IfmtInput)
  | spreadValue (e : Expr)
  | attrExpr (e : Expr)
  | eventTokens (e : Expr)
  | shorthand (s : String)
deriving DecidableEq, Repr

/-- A component field: name plus value. -/
structure Attribute where
  name : AttributeName
  value : AttributeValue
deriving DecidableEq, Repr

/-- `BodyNode` from the node model: the closed set of node variants.
Element fields are inlined into the constructor (tag name, optional key,
raw attribute list, merged attribute list, children).  The `Cell<usize>`
slot index of each dynamic variant (`dyn_idx` / `location.idx`) is
modelled as an `Option Nat` populated by the indexing pass.  The nested
bodies of for loops, if chains and components are indexed independently
and never inspected by the outer pass; the if-chain contents are kept
opaque. -/
inductive BodyNode where
  | element (name : ElementName) (key : Option IfmtInput)
      (attributes : List AttributeType) (merged_attributes : List AttributeType)
      (children : List BodyNode)
  | text (dyn_idx : Option Nat) (input : IfmtInput)
  | rawExpr (dyn_idx : Option Nat) (expr : Expr)
  | forLoop (dyn_idx : Option Nat) (expr : Expr) (body : List BodyNode)
  | component (dyn_idx : Option Nat) (fields : List Attribute) (children : List BodyNode)
  | ifChain (dyn_idx : Option Nat) (chain : Expr)
deriving Repr

/-- `BodyNode::children` (modelled from the spec): path resolution only
descends through element children; the nested bodies of the other
variants are separate templates and are not walked. -/
def BodyNode.childrenOf : BodyNode → List BodyNode
  | .element _ _ _ _ children => children
  | _ => []

/-- The recorded dynamic-slot index of a node (the value of its
`dyn_idx` / `location.idx` cell); elements have no slot. -/
def BodyNode.dynIdxOf : BodyNode → Option Nat
  | .element _ _ _ _ _ => none
  | .text d _ => d
  | .rawExpr d _ => d
  | .forLoop d _ _ => d
  | .component d _ _ => d
  | .ifChain d _ => d

/-- The write-back of `TemplateBody::assign_path_to` (body.rs, lines
162-169): set the node's slot cell to `idx`.  The element arm of the
source is `todo!()` and unreachable (elements are never assigned a
path); the model leaves elements unchanged. -/
def BodyNode.setDynIdx (node : BodyNode) (idx : Nat) : BodyNode :=
  match node with
  | .element name key attrs merged children => .element name key attrs merged children
  | .text _ input => .text (some idx) input
  | .rawExpr _ e => .rawExpr (some idx) e
  | .forLoop _ e body => .forLoop (some idx) e body
  | .component _ fields children => .component (some idx) fields children
  | .ifChain _ c => .ifChain (some idx) c

/-- `TemplateBody` from body.rs: the indexing unit.  `template_idx`
models the `CallerLocation` ordinal cell, `brace` the optional brace
token.  The struct field `implicit_key` (always `None` after
`from_nodes`) is distinct from the method of the same name, modelled
below as `TemplateBody.implicitKey`. -/
structure TemplateBody where
  roots : List BodyNode
  template_idx : Nat
  brace : Option Unit
  implicit_key : Option IfmtInput
  node_paths : List (List Nat)
  attr_paths : List (List Nat)
  current_path : List Nat

/-- `self.current_path.push(idx as u8)` (body.rs, line 121): push a
sibling offset, truncated to a byte, onto the current path. -/
def TemplateBody.pushIdx (b : TemplateBody) (idx : Nat) : TemplateBody :=
  { b with current_path := b.current_path ++ [idx % 256] }

/-- `self.current_path.pop()` (body.rs, line 147). -/
def TemplateBody.popPath (b : TemplateBody) : TemplateBody :=
  { b with current_path := b.current_path.dropLast }

/-- `TemplateBody::assign_attr_idx` (body.rs, lines 151-155): record the
current path extended with the attribute offset (cast to `u8`, i.e.
`% 256`) into the attribute-path table. -/
def TemplateBody.assign_attr_idx (b : TemplateBody) (attr_idx : Nat) : TemplateBody :=
  { b with attr_paths := b.attr_paths ++ [b.current_path ++ [attr_idx % 256]] }

/-- `TemplateBody::assign_path_to` (body.rs, lines 159-173): give the
node the next dense dynamic index (the current length of `node_paths`),
write it back onto the node's slot cell, and record the current path. -/
def TemplateBody.assign_path_to (b : TemplateBody) (node : BodyNode) :
    TemplateBody × BodyNode :=
  let idx := b.node_paths.length
  let node' := node.setDynIdx idx
  ({ b with node_paths := b.node_paths ++ [b.current_path] }, node')

/-- The merged-attribute scan of the element arm of
`assign_paths_inner` (body.rs, lines 125-129): for every non-static
merged attribute, record an attribute path with that attribute's
offset. -/
def TemplateBody.assignElementAttrs (b : TemplateBody) (attr_idx : Nat) :
    List AttributeType → TemplateBody
  | [] => b
  | attr :: rest =>
    let b' := if !attr.is_static_str_literal then b.assign_attr_idx attr_idx else b
    b'.assignElementAttrs (attr_idx + 1) rest

/-- `TemplateBody::assign_paths_inner` (body.rs, lines 119-149): walk the
sibling list depth-first, pushing each sibling offset (cast to `u8`,
i.e. `% 256`) onto the current path; elements have their non-static
merged attributes recorded and their children descended into; static
text is skipped; dynamic text, raw expressions, for loops, components
and if chains receive the next dense node index.  The source mutates
the nodes' slot cells; the model returns the updated sibling list. -/
def TemplateBody.assign_paths_inner (b : TemplateBody) (idx : Nat)
    (nodes : List BodyNode) : TemplateBody × List BodyNode :=
  match nodes with
  | [] => (b, [])
  | node :: rest =>
    let b1 := b.pushIdx idx
    let step : TemplateBody × BodyNode :=
      match node with
      | .element name key attrs merged children =>
        let bA := b1.assignElementAttrs 0 merged
        let rc := bA.assign_paths_inner 0 children
        (rc.1, .element name key attrs merged rc.2)
      | .text d input =>
        if !input.is_static then b1.assign_path_to (.text d input)
        else (b1, .text d input)
      | other => b1.assign_path_to other
    let r := step.1.popPath.assign_paths_inner (idx + 1) rest
    (r.1, step.2 :: r.2)
termination_by sizeOf nodes
decreasing_by
  all_goals simp_wf
  all_goals simp_arith

/-- The empty body that `TemplateBody::from_nodes` starts from (body.rs,
lines 90-99): no roots, default ordinal, empty path tables. -/
def initialBody : TemplateBody :=
  { roots := [], template_idx := 0, brace := none, implicit_key := none,
    node_paths := [], attr_paths := [], current_path := [] }

/-- `TemplateBody::from_nodes` (body.rs, lines 89-108): build an empty
body, assign paths to all nodes, and save the (updated) roots. -/
def TemplateBody.from_nodes (nodes : List BodyNode) : TemplateBody :=
  let b : TemplateBody := initialBody
  let r := b.assign_paths_inner 0 nodes
  { r.1 with roots := r.2 }

/-- `TemplateBody::is_empty`. -/
def TemplateBody.is_empty (b : TemplateBody) : Bool :=
  b.roots.isEmpty

/-- The descent loop of `TemplateBody::get_dyn_node` (body.rs, lines
209-211): follow the remaining path entries through `children()`; the
source's `.unwrap()` panics are modelled as `none`. -/
def getDynNodeAux : BodyNode → List Nat → Option BodyNode
  | node, [] => some node
  | node, i :: rest =>
    match node.childrenOf.get? i with
    | some child => getDynNodeAux child rest
    | none => none

/-- `TemplateBody::get_dyn_node` (body.rs, lines 207-213): resolve a
recorded path against the roots; `path[0]` on an empty path and failed
lookups (`.unwrap()`) are modelled as `none`. -/
def TemplateBody.get_dyn_node (b : TemplateBody) (path : List Nat) : Option BodyNode :=
  match path with
  | [] => none
  | i :: rest =>
    match b.roots.get? i with
    | some node => getDynNodeAux node rest
    | none => none

/-- `TemplateBody::get_dyn_attr` (body.rs, lines 215-220): resolve the
node components of the path, expect an element, and index its raw
`attributes` list (not `merged_attributes`) with the final offset; the
`unreachable!()` and `.unwrap()` are modelled as `none`. -/
def TemplateBody.get_dyn_attr (b : TemplateBody) (path : List Nat) : Option AttributeType :=
  match b.get_dyn_node (path.dropLast) with
  | some (.element _ _ attributes _ _) =>
    match path.getLast? with
    | some j => attributes.get? j
    | none => none
  | _ => none

/-- `Component::get_key` (component.rs, lines 189-193): the first field
whose name is the known identifier `key`. -/
def get_key (fields : List Attribute) : Option Attribute :=
  fields.find? fun attr =>
    match attr.name with
    | .known k => decide (k = ("key"))
    | _ => false

/-- Modelled from the spec: `Component::key` (called at body.rs line 201
but not defined under the sampled sources) — the formatted-string value
of the explicit `key` field, when present. -/
def componentKey (fields : List Attribute) : Option IfmtInput :=
  match get_key fields with
  | some attr =>
    match attr.value with
    | .attrIfmt v => some v
    | _ => none
  | none => none

/-- `TemplateBody::implicit_key` the method (body.rs, lines 198-205):
the first root's key when there is exactly one root and it is an element
with a key or a component with a key field; `None` otherwise. -/
def TemplateBody.implicitKey (b : TemplateBody) : Option IfmtInput :=
  match b.roots.head? with
  | some (.element _ key _ _ _) =>
    if b.roots.length = 1 then key else none
  | some (.component _ fields _) =>
    if b.roots.length = 1 then componentKey fields else none
  | _ => none

/-- `Element` from node/element.rs: tag name, optional key, raw
attribute list (declaration order), merged attribute list, children. -/
structure Element where
  name : ElementName
  key : Option IfmtInput
  attributes : List AttributeType
  merged_attributes : List AttributeType
  children : List BodyNode

/-- Modelled from the spec: the external grammar layer hands the core
typed values (§6).  For one value position in an element body,
`RawTokens` packages what those tokens parse to under each of the three
grammars the element parser chooses by attribute name: an expression
(event handlers), a formatted string (keys), or a general attribute
value. -/
structure RawTokens where
  asExpr : Expr
  asIfmt : IfmtInput
  asValue : ElementAttrValue
deriving DecidableEq, Repr

/-- `str::starts_with`, modelled on the string's character list (the
UTF-8 byte representation is irrelevant at this level). -/
def strStartsWith (s p : String) : Bool :=
  p.data.isPrefixOf s.data

/-- One attribute declaration of an element's attribute section, as the
grammar delivers it to the attribute loop of `Element::parse`
(element.rs, lines 40-196): a `..expr` spread, a `"name": value`
literal-named attribute, a `name: value` attribute, or a bare shorthand
identifier (an identifier followed by none of brace, colon, dash). -/
inductive AttrDecl where
  | spreadDecl (e : Expr)
  | litDecl (name : String) (tok : RawTokens)
  | identDecl (name : String) (tok : RawTokens)
  | shorthandDecl (name : String)
deriving DecidableEq, Repr

/-- The attribute loop of `Element::parse` (element.rs, lines 40-196):
process each declaration in order, accumulating the attribute list and
the optional key.  A `name: value` attribute whose name starts with
`on` becomes an event listener, after a hard-error check for an already
accumulated listener of the same event; `key:` parses a formatted
string and hard-errors when it is static; a shorthand named `children`
is a hard error. -/
def parseAttrsGo (el_name : ElementName) (attributes : List AttributeType)
    (key : Option IfmtInput) :
    List AttrDecl → Except String (List AttributeType × Option IfmtInput)
  | [] => .ok (attributes, key)
  | d :: rest =>
    match d with
    | .spreadDecl e =>
      parseAttrsGo el_name (attributes ++ [.spread e]) key rest
    | .litDecl name tok =>
      parseAttrsGo el_name
        (attributes ++ [.named ⟨el_name, ⟨.custom name, tok.asValue⟩⟩]) key rest
    | .identDecl name tok =>
      if strStartsWith name ("on") then
        if attributes.any (fun f =>
            match f with
            | .named ⟨_, ⟨.builtIn n, .eventTokens _⟩⟩ => decide (n = name)
            | _ => false) then
          .error ("Duplicate event listener " ++ name)
        else
          parseAttrsGo el_name
            (attributes ++ [.named ⟨el_name, ⟨.builtIn name, .eventTokens tok.asExpr⟩⟩])
            key rest
      else if name = ("key") then
        if tok.asIfmt.is_static then .error ("Element keys must be dynamic format strings")
        else parseAttrsGo el_name attributes (some tok.asIfmt) rest
      else
        parseAttrsGo el_name
          (attributes ++ [.named ⟨el_name, ⟨.builtIn name, tok.asValue⟩⟩]) key rest
    | .shorthandDecl name =>
      if name = ("children") then
        .error ("Shorthand element children are not supported")
      else
        parseAttrsGo el_name
          (attributes ++ [.named ⟨el_name, ⟨.builtIn name, .shorthand name⟩⟩]) key rest

/-- `Element::parse` (element.rs, lines 23-244) at the level of already
tokenized attribute declarations and children: run the attribute loop,
then build the element with its merged attribute cache. -/
def Element.parse (el_name : ElementName) (decls : List AttrDecl)
    (children : List BodyNode) : Except String Element :=
  match parseAttrsGo el_name [] none decls with
  | .error e => .error e
  | .ok (attributes, key) =>
    .ok { name := el_name, key := key, attributes := attributes,
          merged_attributes := mergeAttributes attributes, children := children }

/-- `syn::PathArguments`: none, angle-bracketed generics, or
parenthesized arguments. -/
inductive PathArguments where
  | noArgs
  | angleBracketed
  | parenthesized
deriving DecidableEq, Repr

/-- One segment of a `syn::Path`: identifier plus arguments. -/
structure PathSegment where
  ident : String
  arguments : PathArguments
deriving DecidableEq, Repr

/-- A `syn::Path`: the component's invocation name. -/
structure CompPath where
  segments : List PathSegment
deriving DecidableEq, Repr

/-- Diagnostic message of the component name-casing check. -/
def nameCaseMsg : String :=
  "Component names must be uppercase, contain an underscore, or abe a path."

/-- Diagnostic message of the early-path-arguments check. -/
def pathArgsMsg : String :=
  "Component names must not have path arguments. Only the last segment is allowed to have one."

/-- Diagnostic message of the last-segment-arguments check. -/
def lastArgsMsg : String :=
  "Component names must have no arguments or angle bracketed arguments."

/-- Diagnostic message of the spread-position check. -/
def spreadLastMsg : String :=
  "Spread attributes must be the last attribute in the component."

/-- Diagnostic message for a static key. -/
def staticKeyMsg : String :=
  "Key must not be a static string."

/-- Diagnostic message for a non-formatted-string key. -/
def malformedKeyMsg : String :=
  "Key must be in the form of a formatted string."

/-- Diagnostic message for a custom-named component field. -/
def customFieldMsg : String :=
  "Custom attributes are not supported for Components. Only known attributes are allowed."

/-- Diagnostic message for a duplicate known component field. -/
def dupFieldMsg : String :=
  "Duplicate attribute found. Only one attribute of each type is allowed."

/-- Whether a string's first character is lowercase
(`.chars().next().unwrap().is_lowercase()`; idents are nonempty). -/
def strFirstLower (s : String) : Bool :=
  match s.data with
  | c :: _ => c.isLower
  | [] => false

/-- `Component::validate_path` (component.rs, lines 107-145), returning
the diagnostics it pushes: reject a single lowercase no-underscore
segment; reject path arguments on any segment but the last; reject
non-angle-bracketed arguments on the last segment. -/
def validate_path_diags (path : CompPath) : List String :=
  let d1 :=
    if path.segments.length = 1 then
      match path.segments.head? with
      | some seg =>
        if strFirstLower seg.ident && !(seg.ident.contains ('_')) then [nameCaseMsg]
        else []
      | none => []
    else []
  let d2 :=
    if (path.segments.take (path.segments.length - 1)).any
        (fun seg => !(decide (seg.arguments = PathArguments.noArgs))) then [pathArgsMsg]
    else []
  let d3 :=
    match path.segments.getLast? with
    | some last =>
      if (match last.arguments with
          | .noArgs => false
          | .angleBracketed => false
          | .parenthesized => true) then [lastArgsMsg]
      else []
    | none => []
  d1 ++ d2 ++ d3

/-- `Component::validate_spread` (component.rs, lines 148-165): the
first spread field, if any, must be the last field. -/
def validate_spread_diags (fields : List Attribute) : List String :=
  match fields.findIdx? (fun attr =>
      match attr.value with
      | .spreadValue _ => true
      | _ => false) with
  | some i => if i ≠ fields.length - 1 then [spreadLastMsg] else []
  | none => []

/-- `Component::validate_key` (component.rs, lines 170-187): a key
field must be a non-static formatted string. -/
def validate_key_diags (fields : List Attribute) : List String :=
  match get_key fields with
  | none => []
  | some attr =>
    match attr.value with
    | .attrIfmt ifmt => if ifmt.is_static then [staticKeyMsg] else []
    | _ => [malformedKeyMsg]

/-- The loop of `Component::validate_fields` (component.rs, lines
199-221) with its `seen` set (syn identifiers compare by string):
custom names are always flagged; a known name already seen is flagged;
spreads are skipped. -/
def validate_fields_go (seen : List String) : List Attribute → List String
  | [] => []
  | f :: rest =>
    match f.name with
    | .custom _ => customFieldMsg :: validate_fields_go seen rest
    | .known k =>
      if seen.contains k then dupFieldMsg :: validate_fields_go seen rest
      else validate_fields_go (k :: seen) rest
    | .spreadDots => validate_fields_go seen rest

/-- `Component::validate_fields`, starting from an empty seen set. -/
def validate_fields_diags (fields : List Attribute) : List String :=
  validate_fields_go [] fields

/-- `Component` from node/component.rs; `generics` is kept opaque,
`diagnostics` is the ordered message list (`Diagnostics` of
diagnostics.rs models a plain push-in-order vector). -/
structure Component where
  name : CompPath
  generics : Option Nat
  fields : List Attribute
  children : TemplateBody
  dyn_idx : Option Nat
  diagnostics : List String

/-- `Component::parse` (component.rs, lines 44-71) after the `RsxBlock`
grammar step: build the node (children become their own indexed
`TemplateBody`) and run the four validators in source order, collecting
diagnostics; the function never fails. -/
def Component.parse (name : CompPath) (generics : Option Nat)
    (fields : List Attribute) (children : List BodyNode) : Component :=
  { name := name, generics := generics, fields := fields,
    children := TemplateBody.from_nodes children,
    dyn_idx := none,
    diagnostics :=
      validate_path_diags name ++ validate_fields_diags fields ++
      validate_key_diags fields ++ validate_spread_diags fields }

/-- The value part of one entry of `Component::make_field_idents`: a
formatted string is rendered through `.to_string()`, anything else
through `to_token_stream`. -/
inductive FieldVal where
  | ifmtString (v : IfmtInput)
  | tokens (v : AttributeValue)
deriving DecidableEq, Repr

/-- `Component::make_field_idents` (component.rs, lines 266-296): every
known field except `key` yields a (name, value) setter pair, in
declaration order; custom and spread names and spread values are
skipped.  Nothing deduplicates repeated names. -/
def make_field_idents (fields : List Attribute) : List (String × FieldVal) :=
  fields.filterMap fun attr =>
    match attr.name with
    | .known k =>
      if k = ("key") then none
      else
        match attr.value with
        | .spreadValue _ => none
        | .attrIfmt ifmt => some (k, .ifmtString ifmt)
        | v => some (k, .tokens v)
    | .custom _ => none
    | .spreadDots => none

/-- Spec §4.3: the dynamic nodes of a sibling list in depth-first,
left-to-right, pre-order traversal order — elements contribute their
children's dynamic nodes, static text contributes nothing, every other
variant contributes itself and is not walked further. -/
def dynNodesOfList : List BodyNode → List BodyNode
  | [] => []
  | node :: rest =>
    (match node with
     | .element _ _ _ _ children => dynNodesOfList children
     | .text d input => if !input.is_static then [.text d input] else []
     | other => [other]) ++ dynNodesOfList rest
termination_by nodes => sizeOf nodes
decreasing_by
  all_goals simp_wf
  all_goals simp_arith

/-- Spec §4.3: the number of dynamic (non-static) merged attributes of a
sibling list in pre-order traversal order. -/
def dynAttrCountList : List BodyNode → Nat
  | [] => 0
  | node :: rest =>
    (match node with
     | .element _ _ _ merged children =>
       (merged.filter fun a => !a.is_static_str_literal).length + dynAttrCountList children
     | _ => 0) + dynAttrCountList rest
termination_by nodes => sizeOf nodes
decreasing_by
  all_goals simp_wf
  all_goals simp_arith

/-- Every element of the tree has at most 256 children (sibling offsets
then fit a `u8` without truncation). -/
def childCountsSmall : List BodyNode → Bool
  | [] => true
  | node :: rest =>
    (match node with
     | .element _ _ _ _ children =>
       decide (children.length ≤ 256) && childCountsSmall children
     | _ => true) && childCountsSmall rest
termination_by nodes => sizeOf nodes
decreasing_by
  all_goals simp_wf
  all_goals simp_arith

/-- A root list of at most 256 siblings whose every element has at most
256 children: no path entry is truncated by the `u8` cast. -/
def smallBody (nodes : List BodyNode) : Bool :=
  decide (nodes.length ≤ 256) && childCountsSmall nodes

/-- Every entry of every recorded node path and attribute path of a body
fits in a byte. -/
def pathsAreBytes (b : TemplateBody) : Bool :=
  (b.node_paths ++ b.attr_paths).all fun p => p.all fun e => decide (e < 256)

/-- Pair each field with the list of fields preceding it (its left
context), for stating per-occurrence properties of the field check. -/
def annotateSeen (pre : List Attribute) : List Attribute → List (List Attribute × Attribute)
  | [] => []
  | f :: rest => (pre, f) :: annotateSeen (pre ++ [f]) rest

/-- Whether a field list contains a known field of the given name. -/
def hasKnownNamed (k : String) (l : List Attribute) : Bool :=
  l.any fun f =>
    match f.name with
    | .known k2 => decide (k2 = k)
    | _ => false

/-- Spec §4.2 reading of the field checks, per field with its left
context: a custom-named field is always flagged; a known field whose
name already occurred among the preceding fields is flagged (one
diagnostic per occurrence after the first); spreads are not flagged. -/
def fieldDiagSpec : List Attribute × Attribute → Option String
  | (pre, f) =>
    match f.name with
    | .custom _ => some customFieldMsg
    | .known k => if hasKnownNamed k pre then some dupFieldMsg else none
    | .spreadDots => none

/-- Spec §4.2 name-shape rule: a single lowercase identifier with no
underscore is rejected. -/
def nameShapeViolation (p : CompPath) : Bool :=
  match p.segments with
  | [seg] => strFirstLower seg.ident && !(seg.ident.contains ('_'))
  | _ => false

/-- Spec §4.2 path-arguments rule: only the final path segment may carry
generic arguments. -/
def earlyArgsViolation (p : CompPath) : Bool :=
  p.segments.dropLast.any fun seg => !(decide (seg.arguments = PathArguments.noArgs))

/-- The last segment carries arguments that are not angle-bracketed. -/
def lastArgViolation (p : CompPath) : Bool :=
  match p.segments.getLast? with
  | some last => decide (last.arguments = PathArguments.parenthesized)
  | none => false

/-- Spec §4.2 custom-field rule: components accept only statically known
prop names. -/
def customFieldViolation (fields : List Attribute) : Bool :=
  fields.any fun f =>
    match f.name with
    | .custom _ => true
    | _ => false

/-- Spec §4.2 field-duplication rule: some known field name appears
after an earlier occurrence of the same name. -/
def dupFieldViolation (fields : List Attribute) : Bool :=
  (annotateSeen [] fields).any fun pf =>
    match pf.2.name with
    | .known k => hasKnownNamed k pf.1
    | _ => false

/-- Spec §4.2 key-shape rule: a key field, if present, must be a
non-static formatted string. -/
def keyViolation (fields : List Attribute) : Bool :=
  match get_key fields with
  | none => false
  | some attr =>
    match attr.value with
    | .attrIfmt ifmt => ifmt.is_static
    | _ => true

/-- Spec §4.2 spread-position rule: a spread field anywhere but last is
flagged. -/
def spreadViolation (fields : List Attribute) : Bool :=
  match fields.findIdx? (fun attr =>
      match attr.value with
      | .spreadValue _ => true
      | _ => false) with
  | some i => decide (i ≠ fields.length - 1)
  | none => false

/-- Example: a purely static text node. -/
def staticTextEx : BodyNode := .text none ⟨[.literal ("item")]⟩

/-- Example: a raw expression node (always dynamic). -/
def rawExprEx : BodyNode := .rawExpr none ⟨7⟩

/-- Example: 257 siblings — 256 static texts followed by one dynamic
raw expression at sibling position 256, past the `u8` range. -/
def bigNodes : List BodyNode := List.replicate 256 staticTextEx ++ [rawExprEx]

/-- Example: static attribute `class: "a"`. -/
def classA : AttributeType :=
  .named ⟨.ident ("div"), ⟨.builtIn ("class"), .attrLiteral ⟨[.literal ("a")]⟩⟩⟩

/-- Example: static attribute `class: "b"`. -/
def classB : AttributeType :=
  .named ⟨.ident ("div"), ⟨.builtIn ("class"), .attrLiteral ⟨[.literal ("b")]⟩⟩⟩

/-- Example: dynamic attribute `id: "node-{node_id}"`. -/
def idDyn : AttributeType :=
  .named ⟨.ident ("div"), ⟨.builtIn ("id"),
    .attrLiteral ⟨[.literal ("node-"), .interpolated ("node_id")]⟩⟩⟩

/-- Example: a `div` whose raw attributes are `class: "a", class: "b",
id: "node-{node_id}"` and whose merged attributes are the merge-pass
output, exactly as `Element::parse` builds them. -/
def mismatchEl : BodyNode :=
  .element (.ident ("div")) none [classA, classB, idDyn]
    (mergeAttributes [classA, classB, idDyn]) []

/-- Example value tokens for attribute declarations. -/
def tokEx : RawTokens := ⟨⟨1⟩, ⟨[.interpolated ("x")]⟩, .attrExpr ⟨1⟩⟩

/-- Example: `div { onclick: handlerA, onclick: handlerB }`. -/
def dupEventDecls : List AttrDecl :=
  [.identDecl ("onclick") ⟨⟨1⟩, ⟨[.interpolated ("x")]⟩, .attrExpr ⟨1⟩⟩,
   .identDecl ("onclick") ⟨⟨2⟩, ⟨[.interpolated ("y")]⟩, .attrExpr ⟨2⟩⟩]

/-- Example: an element body declaring the shorthand field `children`. -/
def childrenShDecls : List AttrDecl := [.shorthandDecl ("children")]

/-- Example roots: one `div` with a dynamic text child and a raw
expression child — two dynamic nodes in pre-order. -/
def exRoots : List BodyNode :=
  [.element (.ident ("div")) none [] []
    [.text none ⟨[.interpolated ("msg")]⟩, .rawExpr none ⟨3⟩]]

/-- Example component fields: `prop: "a", prop: "b"` — a duplicate known
field. -/
def dupPropFields : List Attribute :=
  [⟨.known ("prop"), .attrIfmt ⟨[.literal ("a")]⟩⟩,
   ⟨.known ("prop"), .attrIfmt ⟨[.literal ("b")]⟩⟩]

/-- Whether an `Except` result is the error case (a hard parse error). -/
def isErrExcept : Except String α → Bool
  | .error _ => true
  | .ok _ => false

theorem attrNameOf_try_combine {a b c : AttributeType}
    (h : a.try_combine b = some c) : c.attrNameOf = a.attrNameOf := by
  rcases a with ⟨en1, n1, v1⟩ | e1
  · rcases b with ⟨en2, n2, v2⟩ | e2
    · cases v1 with
      | attrLiteral w1 =>
        cases v2 with
        | attrLiteral w2 =>
          simp only [AttributeType.try_combine] at h
          split at h
          · split at h
            · cases h; rfl
            · cases h
          · cases h
        | attrExpr e => simp [AttributeType.try_combine] at h
        | eventTokens e => simp [AttributeType.try_combine] at h
        | shorthand s => simp [AttributeType.try_combine] at h
      | attrExpr e => simp [AttributeType.try_combine] at h
      | eventTokens e => simp [AttributeType.try_combine] at h
      | shorthand s => simp [AttributeType.try_combine] at h
    · cases v1 <;> simp [AttributeType.try_combine] at h
  · simp [AttributeType.try_combine] at h

theorem matches_attr_name_symm (a b : AttributeType) :
    a.matches_attr_name b = b.matches_attr_name a := by
  unfold AttributeType.matches_attr_name
  cases a.attrNameOf <;> cases b.attrNameOf <;> simp [eq_comm]

theorem matches_attr_name_congr {a a' : AttributeType} (b : AttributeType)
    (h : a.attrNameOf = a'.attrNameOf) :
    a.matches_attr_name b = a'.matches_attr_name b := by
  unfold AttributeType.matches_attr_name
  rw [h]

theorem mergeOne_pairwise {merged : List AttributeType} {attr : AttributeType}
    (h : merged.Pairwise fun a b => a.matches_attr_name b = false) :
    (mergeOne merged attr).Pairwise fun a b => a.matches_attr_name b = false := by
  cases hf : merged.findIdx? (fun a => a.matches_attr_name attr) with
  | none =>
    have hres : mergeOne merged attr = merged ++ [attr] := by
      unfold mergeOne
      rw [hf]
    rw [List.findIdx?_eq_none_iff] at hf
    rw [hres, List.pairwise_append]
    refine ⟨h, List.pairwise_singleton _ _, ?_⟩
    intro a ha b hb
    simp only [List.mem_singleton] at hb
    subst hb
    exact hf a ha
  | some i =>
    have hf' := hf
    rw [List.findIdx?_eq_some_iff_getElem] at hf'
    obtain ⟨hi, -, -⟩ := hf'
    have hget : merged[i]? = some merged[i] := List.getElem?_eq_getElem hi
    cases hc : merged[i].try_combine attr with
    | none =>
      have hres : mergeOne merged attr = merged := by
        unfold mergeOne
        rw [hf]
        simp [hget, hc]
      rw [hres]
      exact h
    | some combined =>
      have hres : mergeOne merged attr = merged.set i combined := by
        unfold mergeOne
        rw [hf]
        simp [hget, hc]
      have hname := attrNameOf_try_combine hc
      rw [hres]
      rw [List.pairwise_iff_getElem] at h ⊢
      intro j k hj hk hjk
      rw [List.length_set] at hj hk
      have hR := h j k hj hk hjk
      rw [List.getElem_set, List.getElem_set]
      split_ifs with h1 h2 h2
      · exfalso
        omega
      · rw [matches_attr_name_congr _ hname]
        subst h1
        exact hR
      · rw [matches_attr_name_symm, matches_attr_name_congr _ hname,
          matches_attr_name_symm]
        subst h2
        exact hR
      · exact hR

theorem foldl_mergeOne_pairwise (attrs : List AttributeType)
    (acc : List AttributeType)
    (h : acc.Pairwise fun a b => a.matches_attr_name b = false) :
    (attrs.foldl mergeOne acc).Pairwise fun a b => a.matches_attr_name b = false := by
  induction attrs generalizing acc with
  | nil => exact h
  | cons x rest ih => exact ih _ (mergeOne_pairwise h)

theorem mergeAttributes_pairwise (attrs : List AttributeType) :
    (mergeAttributes attrs).Pairwise fun a b => a.matches_attr_name b = false :=
  foldl_mergeOne_pairwise attrs [] (List.Pairwise.nil)

theorem foldl_mergeOne_fixed (l acc : List AttributeType)
    (h : (acc ++ l).Pairwise fun a b => a.matches_attr_name b = false) :
    l.foldl mergeOne acc = acc ++ l := by
  induction l generalizing acc with
  | nil => simp
  | cons x rest ih =>
    have hx : ∀ a ∈ acc, a.matches_attr_name x = false := by
      intro a ha
      rw [List.pairwise_append] at h
      exact h.2.2 a ha x (List.mem_cons_self x rest)
    have hfind : acc.findIdx? (fun a => a.matches_attr_name x) = none :=
      List.findIdx?_eq_none_iff.mpr hx
    have hstep : mergeOne acc x = acc ++ [x] := by
      unfold mergeOne
      rw [hfind]
    rw [List.foldl_cons, hstep, ih (acc ++ [x]) (by simpa using h)]
    simp

/-- C5: the element attribute merge is idempotent — merging an
already-merged attribute list yields the same list. -/
theorem c5_merge_idempotent (attrs : List AttributeType) :
    mergeAttributes (mergeAttributes attrs) = mergeAttributes attrs := by
  have h := mergeAttributes_pairwise attrs
  have := foldl_mergeOne_fixed (mergeAttributes attrs) [] (by simpa using h)
  simpa [mergeAttributes] using this

theorem hasKnownNamed_append (k : String) (l1 l2 : List Attribute) :
    hasKnownNamed k (l1 ++ l2) = (hasKnownNamed k l1 || hasKnownNamed k l2) := by
  simp [hasKnownNamed, List.any_append]

theorem annotateSeen_map_snd (l : List Attribute) : ∀ pre,
    (annotateSeen pre l).map Prod.snd = l := by
  induction l with
  | nil =>
    intro pre
    simp [annotateSeen]
  | cons f rest ih =>
    intro pre
    simp [annotateSeen, ih]

theorem validate_fields_go_spec (fields : List Attribute) :
    ∀ (seen : List String) (pre : List Attribute),
    (∀ k : String, seen.contains k = hasKnownNamed k pre) →
    validate_fields_go seen fields = (annotateSeen pre fields).filterMap fieldDiagSpec := by
  induction fields with
  | nil =>
    intro seen pre _
    simp [validate_fields_go, annotateSeen]
  | cons f rest ih =>
    intro seen pre hinv
    obtain ⟨fname, fvalue⟩ := f
    cases fname with
    | custom s =>
      have hpre : ∀ k : String,
          seen.contains k = hasKnownNamed k (pre ++ [⟨AttributeName.custom s, fvalue⟩]) := by
        intro k
        rw [hasKnownNamed_append, hinv k]
        simp [hasKnownNamed]
      have hgo := ih seen _ hpre
      simp only [validate_fields_go, annotateSeen, List.filterMap_cons, fieldDiagSpec, hgo]
    | known k =>
      have hone : ∀ k' : String,
          hasKnownNamed k' [(⟨AttributeName.known k, fvalue⟩ : Attribute)]
            = decide (k = k') := by
        intro k'
        simp [hasKnownNamed]
      cases hc : seen.contains k with
      | true =>
        have hknown : hasKnownNamed k pre = true := by rw [← hinv k, hc]
        have hpre : ∀ k' : String,
            seen.contains k' = hasKnownNamed k' (pre ++ [⟨AttributeName.known k, fvalue⟩]) := by
          intro k'
          rw [hasKnownNamed_append, hinv k', hone k']
          by_cases hkk : k = k'
          · subst hkk
            rw [hknown]
            simp
          · simp [hkk]
        have hgo := ih seen _ hpre
        simp only [validate_fields_go, annotateSeen, List.filterMap_cons, fieldDiagSpec]
        rw [if_pos hc, if_pos hknown, hgo]
      | false =>
        have hknown : hasKnownNamed k pre = false := by rw [← hinv k, hc]
        have hpre : ∀ k' : String,
            (k :: seen).contains k'
              = hasKnownNamed k' (pre ++ [⟨AttributeName.known k, fvalue⟩]) := by
          intro k'
          rw [List.contains_cons, beq_eq_decide, hasKnownNamed_append, hinv k', hone k']
          by_cases hkk : k = k'
          · subst hkk
            simp
          · simp [hkk, Ne.symm hkk]
        have hgo := ih (k :: seen) _ hpre
        simp only [validate_fields_go, annotateSeen, List.filterMap_cons, fieldDiagSpec]
        rw [if_neg (fun h => Bool.noConfusion (hc ▸ h)),
          if_neg (fun h => Bool.noConfusion (hknown ▸ h)), hgo]
    | spreadDots =>
      have hpre : ∀ k : String,
          seen.contains k = hasKnownNamed k (pre ++ [⟨AttributeName.spreadDots, fvalue⟩]) := by
        intro k
        rw [hasKnownNamed_append, hinv k]
        simp [hasKnownNamed]
      have hgo := ih seen _ hpre
      simp only [validate_fields_go, annotateSeen, List.filterMap_cons, fieldDiagSpec, hgo]

theorem validate_fields_eq_spec (fields : List Attribute) :
    validate_fields_diags fields = (annotateSeen [] fields).filterMap fieldDiagSpec := by
  apply validate_fields_go_spec
  intro k
  simp [hasKnownNamed]

theorem lastArg_match_eq (a : PathArguments) :
    (match a with
     | .noArgs => false
     | .angleBracketed => false
     | .parenthesized => true) = decide (a = PathArguments.parenthesized) := by
  cases a <;> rfl

theorem validate_path_eq (p : CompPath) :
    validate_path_diags p =
      (if nameShapeViolation p then [nameCaseMsg] else []) ++
      (if earlyArgsViolation p then [pathArgsMsg] else []) ++
      (if lastArgViolation p then [lastArgsMsg] else []) := by
  obtain ⟨segs⟩ := p
  match segs with
  | [] =>
    simp [validate_path_diags, nameShapeViolation, earlyArgsViolation, lastArgViolation]
  | [seg] =>
    simp [validate_path_diags, nameShapeViolation, earlyArgsViolation, lastArgViolation,
      lastArg_match_eq]
  | s1 :: s2 :: rest =>
    cases hl : (s2 :: rest).getLast? with
    | none =>
      exact absurd hl (by simp)
    | some last =>
      simp [validate_path_diags, nameShapeViolation, earlyArgsViolation, lastArgViolation,
        List.dropLast_eq_take, lastArg_match_eq, hl]

theorem ite_msg_nil (b : Bool) (m : String) :
    (if b = true then [m] else []) = [] ↔ b = false := by
  cases b <;> simp

theorem validate_path_empty_iff (p : CompPath) :
    validate_path_diags p = [] ↔
      (nameShapeViolation p = false ∧ earlyArgsViolation p = false ∧
        lastArgViolation p = false) := by
  rw [validate_path_eq, List.append_eq_nil, List.append_eq_nil, ite_msg_nil, ite_msg_nil,
    ite_msg_nil]
  tauto

theorem validate_key_empty_iff (fields : List Attribute) :
    validate_key_diags fields = [] ↔ keyViolation fields = false := by
  unfold validate_key_diags keyViolation
  cases get_key fields with
  | none => simp
  | some attr =>
    cases hv : attr.value with
    | attrIfmt v =>
      cases hs : v.is_static <;> simp [hv, hs]
    | spreadValue e => simp [hv]
    | attrExpr e => simp [hv]
    | eventTokens e => simp [hv]
    | shorthand s => simp [hv]

theorem validate_spread_empty_iff (fields : List Attribute) :
    validate_spread_diags fields = [] ↔ spreadViolation fields = false := by
  unfold validate_spread_diags spreadViolation
  cases fields.findIdx? (fun attr =>
      match attr.value with
      | .spreadValue _ => true
      | _ => false) with
  | none => simp
  | some i =>
    by_cases h : i = fields.length - 1 <;> simp [h]

theorem validate_fields_empty_iff (fields : List Attribute) :
    validate_fields_diags fields = [] ↔
      (customFieldViolation fields = false ∧ dupFieldViolation fields = false) := by
  rw [validate_fields_eq_spec, List.filterMap_eq_nil_iff]
  unfold customFieldViolation dupFieldViolation
  rw [List.any_eq_false, List.any_eq_false]
  constructor
  · intro h
    constructor
    · intro f hf
      have hm : f ∈ (annotateSeen [] fields).map Prod.snd := by
        rw [annotateSeen_map_snd]
        exact hf
      obtain ⟨pf, hpf, hsnd⟩ := List.mem_map.mp hm
      obtain ⟨pre, f'⟩ := pf
      have hnone := h _ hpf
      simp only at hsnd
      subst hsnd
      cases hn : f'.name with
      | custom s => simp [fieldDiagSpec, hn] at hnone
      | known k => simp [hn]
      | spreadDots => simp [hn]
    · intro pf hpf
      obtain ⟨pre, f⟩ := pf
      have hnone := h _ hpf
      cases hn : f.name with
      | custom s => simp [fieldDiagSpec, hn] at hnone
      | known k =>
        simp only [fieldDiagSpec, hn] at hnone
        simp only [hn]
        cases hk : hasKnownNamed k pre with
        | true => rw [hk] at hnone; simp at hnone
        | false => simp
      | spreadDots => simp [hn]
  · intro hcd pf hpf
    obtain ⟨hcust, hdup⟩ := hcd
    obtain ⟨pre, f⟩ := pf
    have hfmem : f ∈ fields := by
      have := List.mem_map_of_mem Prod.snd hpf
      rw [annotateSeen_map_snd] at this
      exact this
    cases hn : f.name with
    | custom s =>
      exact absurd (by simp [hn] : (match f.name with
        | AttributeName.custom _ => true
        | _ => false) = true) (hcust f hfmem)
    | known k =>
      have := hdup _ hpf
      simp only [hn] at this
      simp only [fieldDiagSpec, hn]
      rw [if_neg (by simpa using this)]
    | spreadDots => simp [fieldDiagSpec, hn]

/-- C7: after the grammar step, `Component::parse` always produces a
component node preserving its inputs (it never aborts), its diagnostics
are exactly the concatenation of the four validators' diagnostics in
source order, and each check's diagnostics are empty exactly when its
own rule is not violated — so the checks fire independently and fully
valid input yields zero diagnostics. -/
theorem c7_component_validation (name : CompPath) (generics : Option Nat)
    (fields : List Attribute) (children : List BodyNode) :
    (Component.parse name generics fields children).name = name ∧
    (Component.parse name generics fields children).fields = fields ∧
    (Component.parse name generics fields children).children
      = TemplateBody.from_nodes children ∧
    (Component.parse name generics fields children).diagnostics =
      validate_path_diags name ++ validate_fields_diags fields ++
      validate_key_diags fields ++ validate_spread_diags fields ∧
    (validate_path_diags name = [] ↔
      (nameShapeViolation name = false ∧ earlyArgsViolation name = false ∧
        lastArgViolation name = false)) ∧
    (validate_fields_diags fields = [] ↔
      (customFieldViolation fields = false ∧ dupFieldViolation fields = false)) ∧
    (validate_key_diags fields = [] ↔ keyViolation fields = false) ∧
    (validate_spread_diags fields = [] ↔ spreadViolation fields = false) :=
  ⟨rfl, rfl, rfl, rfl, validate_path_empty_iff name, validate_fields_empty_iff fields,
    validate_key_empty_iff fields, validate_spread_empty_iff fields⟩

/-- C8 (amended): one diagnostic is appended for every occurrence of a
known field name after the first (the per-occurrence characterization of
`validate_fields`), but code generation does not use only the first
declaration: `make_field_idents` emits a setter pair for every non-key
known declaration, wherever it occurs. -/
theorem c8_dup_diags_and_codegen (fields pre post : List Attribute) (k : String)
    (v : IfmtInput) :
    validate_fields_diags fields = (annotateSeen [] fields).filterMap fieldDiagSpec ∧
    make_field_idents (pre ++ ⟨AttributeName.known k, AttributeValue.attrIfmt v⟩ :: post) =
      make_field_idents pre ++
        (if k = ("key") then [] else [(k, FieldVal.ifmtString v)]) ++
        make_field_idents post := by
  refine ⟨validate_fields_eq_spec fields, ?_⟩
  by_cases hk : k = ("key") <;>
    simp [make_field_idents, List.filterMap_append, List.filterMap_cons, hk]

/-- C8 counterexample: for `myComponent { prop: "a", prop: "b" }` the
field check flags the duplicate, but `make_field_idents` emits a setter
for BOTH declarations, so code generation does not use only the first
`prop` declaration as the claim states. -/
theorem c8_first_wins_cex :
    validate_fields_diags dupPropFields = [dupFieldMsg] ∧
    make_field_idents dupPropFields =
      [(("prop"), FieldVal.ifmtString ⟨[Segment.literal ("a")]⟩),
       (("prop"), FieldVal.ifmtString ⟨[Segment.literal ("b")]⟩)] ∧
    make_field_idents dupPropFields ≠
      [(("prop"), FieldVal.ifmtString ⟨[Segment.literal ("a")]⟩)] := by
  refine ⟨rfl, rfl, ?_⟩
  decide

theorem parseAttrsGo_append (el : ElementName) (l1 l2 : List AttrDecl) :
    ∀ attrs key, parseAttrsGo el attrs key (l1 ++ l2) =
      match parseAttrsGo el attrs key l1 with
      | .error e => .error e
      | .ok (attrs', key') => parseAttrsGo el attrs' key' l2 := by
  induction l1 with
  | nil =>
    intro attrs key
    simp [parseAttrsGo]
  | cons d rest ih =>
    intro attrs key
    cases d with
    | spreadDecl e =>
      simp only [List.cons_append, parseAttrsGo]
      exact ih _ _
    | litDecl name tok =>
      simp only [List.cons_append, parseAttrsGo]
      exact ih _ _
    | identDecl name tok =>
      simp only [List.cons_append, parseAttrsGo]
      by_cases h1 : strStartsWith name ("on") = true
      · rw [if_pos h1, if_pos h1]
        cases hdup : attrs.any (fun f =>
            match f with
            | .named ⟨_, ⟨.builtIn n, .eventTokens _⟩⟩ => decide (n = name)
            | _ => false) with
        | true => rfl
        | false => exact ih _ _
      · rw [if_neg h1, if_neg h1]
        by_cases h2 : name = ("key")
        · rw [if_pos h2, if_pos h2]
          cases hst : tok.asIfmt.is_static with
          | true => rfl
          | false => exact ih _ _
        · rw [if_neg h2, if_neg h2]
          exact ih _ _
    | shorthandDecl name =>
      simp only [List.cons_append, parseAttrsGo]
      by_cases h1 : name = ("children")
      · rw [if_pos h1, if_pos h1]
      · rw [if_neg h1, if_neg h1]
        exact ih _ _

theorem parseAttrsGo_mono (el : ElementName) (l : List AttrDecl) :
    ∀ attrs key attrs' key',
      parseAttrsGo el attrs key l = .ok (attrs', key') →
      ∀ a ∈ attrs, a ∈ attrs' := by
  induction l with
  | nil =>
    intro attrs key attrs' key' h a ha
    simp only [parseAttrsGo] at h
    cases h
    exact ha
  | cons d rest ih =>
    intro attrs key attrs' key' h a ha
    cases d with
    | spreadDecl e =>
      simp only [parseAttrsGo] at h
      exact ih _ _ _ _ h a (List.mem_append_left _ ha)
    | litDecl name tok =>
      simp only [parseAttrsGo] at h
      exact ih _ _ _ _ h a (List.mem_append_left _ ha)
    | identDecl name tok =>
      simp only [parseAttrsGo] at h
      by_cases h1 : strStartsWith name ("on") = true
      · rw [if_pos h1] at h
        cases hdup : attrs.any (fun f =>
            match f with
            | .named ⟨_, ⟨.builtIn n, .eventTokens _⟩⟩ => decide (n = name)
            | _ => false) with
        | true => rw [hdup] at h; cases h
        | false =>
          rw [hdup] at h
          exact ih _ _ _ _ h a (List.mem_append_left _ ha)
      · rw [if_neg h1] at h
        by_cases h2 : name = ("key")
        · rw [if_pos h2] at h
          cases hst : tok.asIfmt.is_static with
          | true => rw [hst] at h; cases h
          | false =>
            rw [hst] at h
            simp only [Bool.false_eq_true, if_false] at h
            exact ih _ _ _ _ h a ha
        · rw [if_neg h2] at h
          exact ih _ _ _ _ h a (List.mem_append_left _ ha)
    | shorthandDecl name =>
      simp only [parseAttrsGo] at h
      by_cases h1 : name = ("children")
      · rw [if_pos h1] at h
        cases h
      · rw [if_neg h1] at h
        exact ih _ _ _ _ h a (List.mem_append_left _ ha)

theorem element_parse_err_iff (el : ElementName) (decls : List AttrDecl)
    (children : List BodyNode) :
    isErrExcept (Element.parse el decls children)
      = isErrExcept (parseAttrsGo el [] none decls) := by
  unfold Element.parse
  cases h : parseAttrsGo el [] none decls with
  | error e => rfl
  | ok p =>
    obtain ⟨attrs, key⟩ := p
    rfl

theorem parseAttrsGo_dup_event_err (el : ElementName) (n : String)
    (t1 t2 : RawTokens) (l1 l2 l3 : List AttrDecl)
    (hon : strStartsWith n ("on") = true) :
    ∀ attrs key,
    isErrExcept (parseAttrsGo el attrs key
      (l1 ++ .identDecl n t1 :: l2 ++ .identDecl n t2 :: l3)) = true := by
  intro attrs key
  rw [parseAttrsGo_append]
  cases h1 : parseAttrsGo el attrs key (l1 ++ AttrDecl.identDecl n t1 :: l2) with
  | error e => rfl
  | ok p1 =>
    obtain ⟨attrs1, key1⟩ := p1
    rw [parseAttrsGo_append] at h1
    cases h0 : parseAttrsGo el attrs key l1 with
    | error e =>
      rw [h0] at h1
      cases h1
    | ok p0 =>
      obtain ⟨attrs0, key0⟩ := p0
      rw [h0] at h1
      simp only [parseAttrsGo] at h1
      rw [if_pos hon] at h1
      cases hdup : attrs0.any (fun f =>
          match f with
          | .named ⟨_, ⟨.builtIn n', .eventTokens _⟩⟩ => decide (n' = n)
          | _ => false) with
      | true =>
        rw [hdup] at h1
        cases h1
      | false =>
        rw [hdup] at h1
        simp only [Bool.false_eq_true, if_false] at h1
        have hmem : (AttributeType.named ⟨el, ⟨.builtIn n, .eventTokens t1.asExpr⟩⟩) ∈ attrs1 :=
          parseAttrsGo_mono el l2 _ _ _ _ h1 _
            (List.mem_append_right _ (List.mem_singleton.mpr rfl))
        have hany : attrs1.any (fun f =>
            match f with
            | .named ⟨_, ⟨.builtIn n', .eventTokens _⟩⟩ => decide (n' = n)
            | _ => false) = true :=
          List.any_eq_true.mpr ⟨_, hmem, by simp⟩
        show isErrExcept (parseAttrsGo el attrs1 key1
          (.identDecl n t2 :: l3)) = true
        simp only [parseAttrsGo]
        rw [if_pos hon, if_pos hany]
        rfl

/-- C6: an element whose attribute section declares two event-handler
attributes for the same event (two `name: value` declarations with the
same `on`-prefixed name) is a hard parse error — `Element::parse`
returns `Err` and no element node is produced. -/
theorem c6_duplicate_event_err (el : ElementName) (children : List BodyNode)
    (n : String) (t1 t2 : RawTokens) (l1 l2 l3 : List AttrDecl)
    (hon : strStartsWith n ("on") = true) :
    isErrExcept (Element.parse el
      (l1 ++ .identDecl n t1 :: l2 ++ .identDecl n t2 :: l3) children) = true := by
  rw [element_parse_err_iff]
  exact parseAttrsGo_dup_event_err el n t1 t2 l1 l2 l3 hon [] none

/-- Witness for C6 at `div { onclick: handlerA, onclick: handlerB }`. -/
theorem c6_duplicate_event_err_witness :
    strStartsWith ("onclick") ("on") = true ∧
    isErrExcept (Element.parse (.ident ("div")) dupEventDecls []) = true :=
  ⟨by decide, c6_duplicate_event_err (.ident ("div")) [] ("onclick")
    ⟨⟨1⟩, ⟨[.interpolated ("x")]⟩, .attrExpr ⟨1⟩⟩
    ⟨⟨2⟩, ⟨[.interpolated ("y")]⟩, .attrExpr ⟨2⟩⟩ [] [] [] (by decide)⟩

/-- C10: an element whose attribute section contains a bare shorthand
attribute named `children` is a hard parse error — `Element::parse`
returns `Err` rather than accepting the field or emitting a
diagnostic. -/
theorem c10_children_shorthand_err (el : ElementName) (children : List BodyNode)
    (l1 l2 : List AttrDecl) :
    isErrExcept (Element.parse el
      (l1 ++ .shorthandDecl ("children") :: l2) children) = true := by
  rw [element_parse_err_iff]
  rw [parseAttrsGo_append]
  cases h1 : parseAttrsGo el [] none l1 with
  | error e => rfl
  | ok p1 =>
    obtain ⟨attrs1, key1⟩ := p1
    show isErrExcept (parseAttrsGo el attrs1 key1
      (.shorthandDecl ("children") :: l2)) = true
    simp [parseAttrsGo, isErrExcept]

theorem assignElementAttrs_basic (attrs : List AttributeType) :
    ∀ (b : TemplateBody) (ai : Nat),
    (b.assignElementAttrs ai attrs).current_path = b.current_path ∧
    (b.assignElementAttrs ai attrs).node_paths = b.node_paths ∧
    ∃ d, (b.assignElementAttrs ai attrs).attr_paths = b.attr_paths ++ d := by
  induction attrs with
  | nil =>
    intro b ai
    exact ⟨rfl, rfl, [], by simp [TemplateBody.assignElementAttrs]⟩
  | cons attr rest ih =>
    intro b ai
    cases hs : attr.is_static_str_literal with
    | true =>
      have hstep : b.assignElementAttrs ai (attr :: rest)
          = b.assignElementAttrs (ai + 1) rest := by
        simp [TemplateBody.assignElementAttrs, hs]
      rw [hstep]
      exact ih b (ai + 1)
    | false =>
      have hstep : b.assignElementAttrs ai (attr :: rest)
          = (b.assign_attr_idx ai).assignElementAttrs (ai + 1) rest := by
        simp [TemplateBody.assignElementAttrs, hs]
      rw [hstep]
      obtain ⟨h1, h2, d, h3⟩ := ih (b.assign_attr_idx ai) (ai + 1)
      refine ⟨h1.trans rfl, h2.trans rfl, ?_⟩
      refine ⟨(b.current_path ++ [ai % 256]) :: d, ?_⟩
      rw [h3]
      simp [TemplateBody.assign_attr_idx]

theorem pushIdx_fields (b : TemplateBody) (idx : Nat) :
    (b.pushIdx idx).current_path = b.current_path ++ [idx % 256] ∧
    (b.pushIdx idx).node_paths = b.node_paths ∧
    (b.pushIdx idx).attr_paths = b.attr_paths :=
  ⟨rfl, rfl, rfl⟩

theorem popPath_fields (b : TemplateBody) :
    b.popPath.current_path = b.current_path.dropLast ∧
    b.popPath.node_paths = b.node_paths ∧
    b.popPath.attr_paths = b.attr_paths :=
  ⟨rfl, rfl, rfl⟩

theorem assign_step_element (b : TemplateBody) (idx : Nat) (name : ElementName)
    (key : Option IfmtInput) (attrs merged : List AttributeType)
    (children rest : List BodyNode) :
    b.assign_paths_inner idx (.element name key attrs merged children :: rest) =
      (let rc := ((b.pushIdx idx).assignElementAttrs 0 merged).assign_paths_inner 0 children
       let r := rc.1.popPath.assign_paths_inner (idx + 1) rest
       (r.1, .element name key attrs merged rc.2 :: r.2)) := by
  rw [TemplateBody.assign_paths_inner.eq_2]

theorem assign_step_text_static (b : TemplateBody) (idx : Nat) (d : Option Nat)
    (input : IfmtInput) (rest : List BodyNode) (h : input.is_static = true) :
    b.assign_paths_inner idx (.text d input :: rest) =
      ((b.assign_paths_inner (idx + 1) rest).1,
       .text d input :: (b.assign_paths_inner (idx + 1) rest).2) := by
  rw [TemplateBody.assign_paths_inner.eq_3]
  have hpop : (b.pushIdx idx).popPath = b := by
    cases b
    simp [TemplateBody.pushIdx, TemplateBody.popPath, List.dropLast_concat]
  simp [h, hpop]

theorem pushIdx_assign_path_to_popPath (b : TemplateBody) (idx : Nat) (node : BodyNode) :
    ((b.pushIdx idx).assign_path_to node).1.popPath =
      { b with node_paths := b.node_paths ++ [b.current_path ++ [idx % 256]] } := by
  cases b
  simp [TemplateBody.pushIdx, TemplateBody.popPath, TemplateBody.assign_path_to,
    List.dropLast_concat]

theorem assign_step_text_dyn (b : TemplateBody) (idx : Nat) (d : Option Nat)
    (input : IfmtInput) (rest : List BodyNode) (h : input.is_static = false) :
    b.assign_paths_inner idx (.text d input :: rest) =
      (let b' : TemplateBody :=
        { b with node_paths := b.node_paths ++ [b.current_path ++ [idx % 256]] }
       ((b'.assign_paths_inner (idx + 1) rest).1,
        .text (some b.node_paths.length) input
          :: (b'.assign_paths_inner (idx + 1) rest).2)) := by
  rw [TemplateBody.assign_paths_inner.eq_3]
  cases b
  simp [h, TemplateBody.assign_path_to, TemplateBody.pushIdx, TemplateBody.popPath,
    BodyNode.setDynIdx, List.dropLast_concat]

theorem assign_step_rawExpr (b : TemplateBody) (idx : Nat) (d : Option Nat)
    (e : Expr) (rest : List BodyNode) :
    b.assign_paths_inner idx (.rawExpr d e :: rest) =
      (let b' : TemplateBody :=
        { b with node_paths := b.node_paths ++ [b.current_path ++ [idx % 256]] }
       ((b'.assign_paths_inner (idx + 1) rest).1,
        .rawExpr (some b.node_paths.length) e
          :: (b'.assign_paths_inner (idx + 1) rest).2)) := by
  rw [TemplateBody.assign_paths_inner.eq_4 _ _ _ _
    (fun _ _ _ _ _ h => BodyNode.noConfusion h) (fun _ _ h => BodyNode.noConfusion h)]
  cases b
  simp [TemplateBody.assign_path_to, TemplateBody.pushIdx, TemplateBody.popPath,
    BodyNode.setDynIdx, List.dropLast_concat]

theorem assign_step_forLoop (b : TemplateBody) (idx : Nat) (d : Option Nat)
    (e : Expr) (body rest : List BodyNode) :
    b.assign_paths_inner idx (.forLoop d e body :: rest) =
      (let b' : TemplateBody :=
        { b with node_paths := b.node_paths ++ [b.current_path ++ [idx % 256]] }
       ((b'.assign_paths_inner (idx + 1) rest).1,
        .forLoop (some b.node_paths.length) e body
          :: (b'.assign_paths_inner (idx + 1) rest).2)) := by
  rw [TemplateBody.assign_paths_inner.eq_4 _ _ _ _
    (fun _ _ _ _ _ h => BodyNode.noConfusion h) (fun _ _ h => BodyNode.noConfusion h)]
  cases b
  simp [TemplateBody.assign_path_to, TemplateBody.pushIdx, TemplateBody.popPath,
    BodyNode.setDynIdx, List.dropLast_concat]

theorem assign_step_component (b : TemplateBody) (idx : Nat) (d : Option Nat)
    (fields : List Attribute) (children rest : List BodyNode) :
    b.assign_paths_inner idx (.component d fields children :: rest) =
      (let b' : TemplateBody :=
        { b with node_paths := b.node_paths ++ [b.current_path ++ [idx % 256]] }
       ((b'.assign_paths_inner (idx + 1) rest).1,
        .component (some b.node_paths.length) fields children
          :: (b'.assign_paths_inner (idx + 1) rest).2)) := by
  rw [TemplateBody.assign_paths_inner.eq_4 _ _ _ _
    (fun _ _ _ _ _ h => BodyNode.noConfusion h) (fun _ _ h => BodyNode.noConfusion h)]
  cases b
  simp [TemplateBody.assign_path_to, TemplateBody.pushIdx, TemplateBody.popPath,
    BodyNode.setDynIdx, List.dropLast_concat]

theorem assign_step_ifChain (b : TemplateBody) (idx : Nat) (d : Option Nat)
    (c : Expr) (rest : List BodyNode) :
    b.assign_paths_inner idx (.ifChain d c :: rest) =
      (let b' : TemplateBody :=
        { b with node_paths := b.node_paths ++ [b.current_path ++ [idx % 256]] }
       ((b'.assign_paths_inner (idx + 1) rest).1,
        .ifChain (some b.node_paths.length) c
          :: (b'.assign_paths_inner (idx + 1) rest).2)) := by
  rw [TemplateBody.assign_paths_inner.eq_4 _ _ _ _
    (fun _ _ _ _ _ h => BodyNode.noConfusion h) (fun _ _ h => BodyNode.noConfusion h)]
  cases b
  simp [TemplateBody.assign_path_to, TemplateBody.pushIdx, TemplateBody.popPath,
    BodyNode.setDynIdx, List.dropLast_concat]

theorem assign_basic (nodes : List BodyNode) : ∀ (b : TemplateBody) (idx : Nat),
    (b.assign_paths_inner idx nodes).1.current_path = b.current_path ∧
    (b.assign_paths_inner idx nodes).2.length = nodes.length ∧
    (∃ d, (b.assign_paths_inner idx nodes).1.node_paths = b.node_paths ++ d) ∧
    (∃ d, (b.assign_paths_inner idx nodes).1.attr_paths = b.attr_paths ++ d) := by
  match nodes with
  | [] =>
    intro b idx
    simp [TemplateBody.assign_paths_inner.eq_1]
  | .element name key attrs merged children :: rest =>
    intro b idx
    rw [assign_step_element]
    obtain ⟨hA1, hA2, dA, hA3⟩ := assignElementAttrs_basic merged (b.pushIdx idx) 0
    obtain ⟨hK1, hK2, ⟨dK, hK3⟩, ⟨dKa, hK4⟩⟩ :=
      assign_basic children ((b.pushIdx idx).assignElementAttrs 0 merged) 0
    obtain ⟨hR1, hR2, ⟨dR, hR3⟩, ⟨dRa, hR4⟩⟩ :=
      assign_basic rest
        (((b.pushIdx idx).assignElementAttrs 0 merged).assign_paths_inner 0 children).1.popPath
        (idx + 1)
    refine ⟨?_, ?_, ⟨dK ++ dR, ?_⟩, ⟨dA ++ dKa ++ dRa, ?_⟩⟩
    · show ((((b.pushIdx idx).assignElementAttrs 0 merged).assign_paths_inner 0
          children).1.popPath.assign_paths_inner (idx + 1) rest).1.current_path
        = b.current_path
      rw [hR1]
      show (((b.pushIdx idx).assignElementAttrs 0 merged).assign_paths_inner 0
        children).1.current_path.dropLast = b.current_path
      rw [hK1, hA1]
      exact List.dropLast_concat
    · show (BodyNode.element name key attrs merged
          (((b.pushIdx idx).assignElementAttrs 0 merged).assign_paths_inner 0 children).2 ::
          ((((b.pushIdx idx).assignElementAttrs 0 merged).assign_paths_inner 0
            children).1.popPath.assign_paths_inner (idx + 1) rest).2).length
        = (BodyNode.element name key attrs merged children :: rest).length
      simp [hR2]
    · show ((((b.pushIdx idx).assignElementAttrs 0 merged).assign_paths_inner 0
          children).1.popPath.assign_paths_inner (idx + 1) rest).1.node_paths
        = b.node_paths ++ (dK ++ dR)
      rw [hR3]
      have hpop : (((b.pushIdx idx).assignElementAttrs 0 merged).assign_paths_inner 0
          children).1.popPath.node_paths
          = (((b.pushIdx idx).assignElementAttrs 0 merged).assign_paths_inner 0
            children).1.node_paths := rfl
      rw [hpop, hK3, hA2]
      show b.node_paths ++ dK ++ dR = b.node_paths ++ (dK ++ dR)
      simp
    · show ((((b.pushIdx idx).assignElementAttrs 0 merged).assign_paths_inner 0
          children).1.popPath.assign_paths_inner (idx + 1) rest).1.attr_paths
        = b.attr_paths ++ (dA ++ dKa ++ dRa)
      rw [hR4]
      have hpop : (((b.pushIdx idx).assignElementAttrs 0 merged).assign_paths_inner 0
          children).1.popPath.attr_paths
          = (((b.pushIdx idx).assignElementAttrs 0 merged).assign_paths_inner 0
            children).1.attr_paths := rfl
      rw [hpop, hK4, hA3]
      show b.attr_paths ++ dA ++ dKa ++ dRa = b.attr_paths ++ (dA ++ dKa ++ dRa)
      simp
  | .text d input :: rest =>
    intro b idx
    cases his : input.is_static with
    | true =>
      rw [assign_step_text_static b idx d input rest his]
      obtain ⟨hR1, hR2, ⟨dR, hR3⟩, ⟨dRa, hR4⟩⟩ := assign_basic rest b (idx + 1)
      exact ⟨hR1, by simp [hR2], ⟨dR, hR3⟩, ⟨dRa, hR4⟩⟩
    | false =>
      rw [assign_step_text_dyn b idx d input rest his]
      obtain ⟨hR1, hR2, ⟨dR, hR3⟩, ⟨dRa, hR4⟩⟩ := assign_basic rest
        { b with node_paths := b.node_paths ++ [b.current_path ++ [idx % 256]] } (idx + 1)
      refine ⟨hR1, by simp [hR2], ⟨[b.current_path ++ [idx % 256]] ++ dR, ?_⟩, ⟨dRa, hR4⟩⟩
      rw [hR3]
      show (b.node_paths ++ [b.current_path ++ [idx % 256]]) ++ dR
        = b.node_paths ++ ([b.current_path ++ [idx % 256]] ++ dR)
      simp
  | .rawExpr d e :: rest =>
    intro b idx
    rw [assign_step_rawExpr b idx d e rest]
    obtain ⟨hR1, hR2, ⟨dR, hR3⟩, ⟨dRa, hR4⟩⟩ := assign_basic rest
      { b with node_paths := b.node_paths ++ [b.current_path ++ [idx % 256]] } (idx + 1)
    refine ⟨hR1, by simp [hR2], ⟨[b.current_path ++ [idx % 256]] ++ dR, ?_⟩, ⟨dRa, hR4⟩⟩
    rw [hR3]
    show (b.node_paths ++ [b.current_path ++ [idx % 256]]) ++ dR
      = b.node_paths ++ ([b.current_path ++ [idx % 256]] ++ dR)
    simp
  | .forLoop d e body :: rest =>
    intro b idx
    rw [assign_step_forLoop b idx d e body rest]
    obtain ⟨hR1, hR2, ⟨dR, hR3⟩, ⟨dRa, hR4⟩⟩ := assign_basic rest
      { b with node_paths := b.node_paths ++ [b.current_path ++ [idx % 256]] } (idx + 1)
    refine ⟨hR1, by simp [hR2], ⟨[b.current_path ++ [idx % 256]] ++ dR, ?_⟩, ⟨dRa, hR4⟩⟩
    rw [hR3]
    show (b.node_paths ++ [b.current_path ++ [idx % 256]]) ++ dR
      = b.node_paths ++ ([b.current_path ++ [idx % 256]] ++ dR)
    simp
  | .component d fields children :: rest =>
    intro b idx
    rw [assign_step_component b idx d fields children rest]
    obtain ⟨hR1, hR2, ⟨dR, hR3⟩, ⟨dRa, hR4⟩⟩ := assign_basic rest
      { b with node_paths := b.node_paths ++ [b.current_path ++ [idx % 256]] } (idx + 1)
    refine ⟨hR1, by simp [hR2], ⟨[b.current_path ++ [idx % 256]] ++ dR, ?_⟩, ⟨dRa, hR4⟩⟩
    rw [hR3]
    show (b.node_paths ++ [b.current_path ++ [idx % 256]]) ++ dR
      = b.node_paths ++ ([b.current_path ++ [idx % 256]] ++ dR)
    simp
  | .ifChain d c :: rest =>
    intro b idx
    rw [assign_step_ifChain b idx d c rest]
    obtain ⟨hR1, hR2, ⟨dR, hR3⟩, ⟨dRa, hR4⟩⟩ := assign_basic rest
      { b with node_paths := b.node_paths ++ [b.current_path ++ [idx % 256]] } (idx + 1)
    refine ⟨hR1, by simp [hR2], ⟨[b.current_path ++ [idx % 256]] ++ dR, ?_⟩, ⟨dRa, hR4⟩⟩
    rw [hR3]
    show (b.node_paths ++ [b.current_path ++ [idx % 256]]) ++ dR
      = b.node_paths ++ ([b.current_path ++ [idx % 256]] ++ dR)
    simp
termination_by sizeOf nodes
decreasing_by
  all_goals simp_wf
  all_goals simp_arith

theorem assignElementAttrs_length (attrs : List AttributeType) :
    ∀ (b : TemplateBody) (ai : Nat),
    (b.assignElementAttrs ai attrs).attr_paths.length
      = b.attr_paths.length + (attrs.filter fun a => !a.is_static_str_literal).length := by
  induction attrs with
  | nil =>
    intro b ai
    simp [TemplateBody.assignElementAttrs]
  | cons attr rest ih =>
    intro b ai
    cases hs : attr.is_static_str_literal with
    | true =>
      have hstep : b.assignElementAttrs ai (attr :: rest)
          = b.assignElementAttrs (ai + 1) rest := by
        simp [TemplateBody.assignElementAttrs, hs]
      rw [hstep, ih]
      simp [hs]
    | false =>
      have hstep : b.assignElementAttrs ai (attr :: rest)
          = (b.assign_attr_idx ai).assignElementAttrs (ai + 1) rest := by
        simp [TemplateBody.assignElementAttrs, hs]
      rw [hstep, ih]
      simp [hs, TemplateBody.assign_attr_idx]
      omega

theorem assign_dyn (nodes : List BodyNode) : ∀ (b : TemplateBody) (idx : Nat),
    (b.assign_paths_inner idx nodes).1.node_paths.length
      = b.node_paths.length + (dynNodesOfList (b.assign_paths_inner idx nodes).2).length ∧
    (∀ j n, (dynNodesOfList (b.assign_paths_inner idx nodes).2)[j]? = some n →
      n.dynIdxOf = some (b.node_paths.length + j)) ∧
    (b.assign_paths_inner idx nodes).1.attr_paths.length
      = b.attr_paths.length + dynAttrCountList (b.assign_paths_inner idx nodes).2 := by
  match nodes with
  | [] =>
    intro b idx
    simp [TemplateBody.assign_paths_inner.eq_1, dynNodesOfList, dynAttrCountList]
  | .element name key attrs merged children :: rest =>
    intro b idx
    rw [assign_step_element]
    obtain ⟨hA1, hA2, dA, hA3⟩ := assignElementAttrs_basic merged (b.pushIdx idx) 0
    have hAL := assignElementAttrs_length merged (b.pushIdx idx) 0
    obtain ⟨hK1, hK2, hK3⟩ :=
      assign_dyn children ((b.pushIdx idx).assignElementAttrs 0 merged) 0
    obtain ⟨hR1, hR2, hR3⟩ :=
      assign_dyn rest
        (((b.pushIdx idx).assignElementAttrs 0 merged).assign_paths_inner 0 children).1.popPath
        (idx + 1)
    have hpopn : (((b.pushIdx idx).assignElementAttrs 0 merged).assign_paths_inner 0
        children).1.popPath.node_paths
        = (((b.pushIdx idx).assignElementAttrs 0 merged).assign_paths_inner 0
          children).1.node_paths := rfl
    have hpopa : (((b.pushIdx idx).assignElementAttrs 0 merged).assign_paths_inner 0
        children).1.popPath.attr_paths
        = (((b.pushIdx idx).assignElementAttrs 0 merged).assign_paths_inner 0
          children).1.attr_paths := rfl
    have hdl : dynNodesOfList (BodyNode.element name key attrs merged
          (((b.pushIdx idx).assignElementAttrs 0 merged).assign_paths_inner 0 children).2 ::
          ((((b.pushIdx idx).assignElementAttrs 0 merged).assign_paths_inner 0
            children).1.popPath.assign_paths_inner (idx + 1) rest).2)
        = dynNodesOfList (((b.pushIdx idx).assignElementAttrs 0 merged).assign_paths_inner 0
            children).2 ++
          dynNodesOfList ((((b.pushIdx idx).assignElementAttrs 0 merged).assign_paths_inner 0
            children).1.popPath.assign_paths_inner (idx + 1) rest).2 := by
      simp [dynNodesOfList]
    have hdc : dynAttrCountList (BodyNode.element name key attrs merged
          (((b.pushIdx idx).assignElementAttrs 0 merged).assign_paths_inner 0 children).2 ::
          ((((b.pushIdx idx).assignElementAttrs 0 merged).assign_paths_inner 0
            children).1.popPath.assign_paths_inner (idx + 1) rest).2)
        = (merged.filter fun a => !a.is_static_str_literal).length +
          dynAttrCountList (((b.pushIdx idx).assignElementAttrs 0 merged).assign_paths_inner 0
            children).2 +
          dynAttrCountList ((((b.pushIdx idx).assignElementAttrs 0 merged).assign_paths_inner 0
            children).1.popPath.assign_paths_inner (idx + 1) rest).2 := by
      simp [dynAttrCountList]
    refine ⟨?_, ?_, ?_⟩
    · show ((((b.pushIdx idx).assignElementAttrs 0 merged).assign_paths_inner 0
          children).1.popPath.assign_paths_inner (idx + 1) rest).1.node_paths.length
        = b.node_paths.length + _
      rw [hR1, hpopn, hK1, hA2, hdl]
      have hbn : (b.pushIdx idx).node_paths = b.node_paths := rfl
      rw [hbn]
      simp [Nat.add_assoc]
    · intro j n hj
      rw [hdl] at hj
      rw [List.getElem?_append] at hj
      split at hj
      · have := hK2 j n hj
        rw [hA2] at this
        exact this
      · have := hR2 _ n hj
        rw [hpopn, hK1, hA2] at this
        rw [this]
        have hbn : (b.pushIdx idx).node_paths = b.node_paths := rfl
        rw [hbn]
        congr 1
        omega
    · show ((((b.pushIdx idx).assignElementAttrs 0 merged).assign_paths_inner 0
          children).1.popPath.assign_paths_inner (idx + 1) rest).1.attr_paths.length
        = b.attr_paths.length + _
      rw [hR3, hpopa, hK3, hAL, hdc]
      have hba : (b.pushIdx idx).attr_paths = b.attr_paths := rfl
      rw [hba]
      omega
  | .text d input :: rest =>
    intro b idx
    cases his : input.is_static with
    | true =>
      rw [assign_step_text_static b idx d input rest his]
      obtain ⟨hR1, hR2, hR3⟩ := assign_dyn rest b (idx + 1)
      have hdl : dynNodesOfList (BodyNode.text d input
            :: (b.assign_paths_inner (idx + 1) rest).2)
          = dynNodesOfList (b.assign_paths_inner (idx + 1) rest).2 := by
        simp [dynNodesOfList, his]
      have hdc : dynAttrCountList (BodyNode.text d input
            :: (b.assign_paths_inner (idx + 1) rest).2)
          = dynAttrCountList (b.assign_paths_inner (idx + 1) rest).2 := by
        simp [dynAttrCountList]
      exact ⟨by rw [hdl]; exact hR1, by rw [hdl]; exact hR2, by rw [hdc]; exact hR3⟩
    | false =>
      rw [assign_step_text_dyn b idx d input rest his]
      obtain ⟨hR1, hR2, hR3⟩ := assign_dyn rest
        { b with node_paths := b.node_paths ++ [b.current_path ++ [idx % 256]] } (idx + 1)
      have hblen : ({ b with node_paths := b.node_paths ++ [b.current_path ++ [idx % 256]] }
          : TemplateBody).node_paths.length = b.node_paths.length + 1 := by
        simp
      have hdl : dynNodesOfList (BodyNode.text (some b.node_paths.length) input
            :: (({ b with node_paths := b.node_paths ++ [b.current_path ++ [idx % 256]] }
              : TemplateBody).assign_paths_inner (idx + 1) rest).2)
          = BodyNode.text (some b.node_paths.length) input
            :: dynNodesOfList (({ b with node_paths := b.node_paths ++
              [b.current_path ++ [idx % 256]] } : TemplateBody).assign_paths_inner
                (idx + 1) rest).2 := by
        simp [dynNodesOfList, his]
      have hdc : dynAttrCountList (BodyNode.text (some b.node_paths.length) input
            :: (({ b with node_paths := b.node_paths ++ [b.current_path ++ [idx % 256]] }
              : TemplateBody).assign_paths_inner (idx + 1) rest).2)
          = dynAttrCountList (({ b with node_paths := b.node_paths ++
              [b.current_path ++ [idx % 256]] } : TemplateBody).assign_paths_inner
                (idx + 1) rest).2 := by
        simp [dynAttrCountList]
      refine ⟨?_, ?_, ?_⟩
      · rw [hdl, hR1, hblen]
        simp [Nat.add_assoc, Nat.add_comm 1]
      · intro j n hj
        rw [hdl] at hj
        cases j with
        | zero =>
          rw [List.getElem?_cons_zero] at hj
          cases hj
          simp [BodyNode.dynIdxOf]
        | succ j' =>
          simp only [List.getElem?_cons_succ] at hj
          have := hR2 j' n hj
          rw [hblen] at this
          rw [this]
          congr 1
          omega
      · rw [hdc, hR3]
  | .rawExpr d e :: rest =>
    intro b idx
    rw [assign_step_rawExpr b idx d e rest]
    obtain ⟨hR1, hR2, hR3⟩ := assign_dyn rest
      { b with node_paths := b.node_paths ++ [b.current_path ++ [idx % 256]] } (idx + 1)
    have hblen : ({ b with node_paths := b.node_paths ++ [b.current_path ++ [idx % 256]] }
        : TemplateBody).node_paths.length = b.node_paths.length + 1 := by
      simp
    have hdl : dynNodesOfList (BodyNode.rawExpr (some b.node_paths.length) e
          :: (({ b with node_paths := b.node_paths ++ [b.current_path ++ [idx % 256]] }
            : TemplateBody).assign_paths_inner (idx + 1) rest).2)
        = BodyNode.rawExpr (some b.node_paths.length) e
          :: dynNodesOfList (({ b with node_paths := b.node_paths ++
            [b.current_path ++ [idx % 256]] } : TemplateBody).assign_paths_inner
              (idx + 1) rest).2 := by
      simp [dynNodesOfList]
    have hdc : dynAttrCountList (BodyNode.rawExpr (some b.node_paths.length) e
          :: (({ b with node_paths := b.node_paths ++ [b.current_path ++ [idx % 256]] }
            : TemplateBody).assign_paths_inner (idx + 1) rest).2)
        = dynAttrCountList (({ b with node_paths := b.node_paths ++
            [b.current_path ++ [idx % 256]] } : TemplateBody).assign_paths_inner
              (idx + 1) rest).2 := by
      simp [dynAttrCountList]
    refine ⟨?_, ?_, ?_⟩
    · rw [hdl, hR1, hblen]
      simp [Nat.add_assoc, Nat.add_comm 1]
    · intro j n hj
      rw [hdl] at hj
      cases j with
      | zero =>
        rw [List.getElem?_cons_zero] at hj
        cases hj
        simp [BodyNode.dynIdxOf]
      | succ j' =>
        simp only [List.getElem?_cons_succ] at hj
        have := hR2 j' n hj
        rw [hblen] at this
        rw [this]
        congr 1
        omega
    · rw [hdc, hR3]
  | .forLoop d e body :: rest =>
    intro b idx
    rw [assign_step_forLoop b idx d e body rest]
    obtain ⟨hR1, hR2, hR3⟩ := assign_dyn rest
      { b with node_paths := b.node_paths ++ [b.current_path ++ [idx % 256]] } (idx + 1)
    have hblen : ({ b with node_paths := b.node_paths ++ [b.current_path ++ [idx % 256]] }
        : TemplateBody).node_paths.length = b.node_paths.length + 1 := by
      simp
    have hdl : dynNodesOfList (BodyNode.forLoop (some b.node_paths.length) e body
          :: (({ b with node_paths := b.node_paths ++ [b.current_path ++ [idx % 256]] }
            : TemplateBody).assign_paths_inner (idx + 1) rest).2)
        = BodyNode.forLoop (some b.node_paths.length) e body
          :: dynNodesOfList (({ b with node_paths := b.node_paths ++
            [b.current_path ++ [idx % 256]] } : TemplateBody).assign_paths_inner
              (idx + 1) rest).2 := by
      simp [dynNodesOfList]
    have hdc : dynAttrCountList (BodyNode.forLoop (some b.node_paths.length) e body
          :: (({ b with node_paths := b.node_paths ++ [b.current_path ++ [idx % 256]] }
            : TemplateBody).assign_paths_inner (idx + 1) rest).2)
        = dynAttrCountList (({ b with node_paths := b.node_paths ++
            [b.current_path ++ [idx % 256]] } : TemplateBody).assign_paths_inner
              (idx + 1) rest).2 := by
      simp [dynAttrCountList]
    refine ⟨?_, ?_, ?_⟩
    · rw [hdl, hR1, hblen]
      simp [Nat.add_assoc, Nat.add_comm 1]
    · intro j n hj
      rw [hdl] at hj
      cases j with
      | zero =>
        rw [List.getElem?_cons_zero] at hj
        cases hj
        simp [BodyNode.dynIdxOf]
      | succ j' =>
        simp only [List.getElem?_cons_succ] at hj
        have := hR2 j' n hj
        rw [hblen] at this
        rw [this]
        congr 1
        omega
    · rw [hdc, hR3]
  | .component d fields children :: rest =>
    intro b idx
    rw [assign_step_component b idx d fields children rest]
    obtain ⟨hR1, hR2, hR3⟩ := assign_dyn rest
      { b with node_paths := b.node_paths ++ [b.current_path ++ [idx % 256]] } (idx + 1)
    have hblen : ({ b with node_paths := b.node_paths ++ [b.current_path ++ [idx % 256]] }
        : TemplateBody).node_paths.length = b.node_paths.length + 1 := by
      simp
    have hdl : dynNodesOfList (BodyNode.component (some b.node_paths.length) fields children
          :: (({ b with node_paths := b.node_paths ++ [b.current_path ++ [idx % 256]] }
            : TemplateBody).assign_paths_inner (idx + 1) rest).2)
        = BodyNode.component (some b.node_paths.length) fields children
          :: dynNodesOfList (({ b with node_paths := b.node_paths ++
            [b.current_path ++ [idx % 256]] } : TemplateBody).assign_paths_inner
              (idx + 1) rest).2 := by
      simp [dynNodesOfList]
    have hdc : dynAttrCountList (BodyNode.component (some b.node_paths.length) fields children
          :: (({ b with node_paths := b.node_paths ++ [b.current_path ++ [idx % 256]] }
            : TemplateBody).assign_paths_inner (idx + 1) rest).2)
        = dynAttrCountList (({ b with node_paths := b.node_paths ++
            [b.current_path ++ [idx % 256]] } : TemplateBody).assign_paths_inner
              (idx + 1) rest).2 := by
      simp [dynAttrCountList]
    refine ⟨?_, ?_, ?_⟩
    · rw [hdl, hR1, hblen]
      simp [Nat.add_assoc, Nat.add_comm 1]
    · intro j n hj
      rw [hdl] at hj
      cases j with
      | zero =>
        rw [List.getElem?_cons_zero] at hj
        cases hj
        simp [BodyNode.dynIdxOf]
      | succ j' =>
        simp only [List.getElem?_cons_succ] at hj
        have := hR2 j' n hj
        rw [hblen] at this
        rw [this]
        congr 1
        omega
    · rw [hdc, hR3]
  | .ifChain d c :: rest =>
    intro b idx
    rw [assign_step_ifChain b idx d c rest]
    obtain ⟨hR1, hR2, hR3⟩ := assign_dyn rest
      { b with node_paths := b.node_paths ++ [b.current_path ++ [idx % 256]] } (idx + 1)
    have hblen : ({ b with node_paths := b.node_paths ++ [b.current_path ++ [idx % 256]] }
        : TemplateBody).node_paths.length = b.node_paths.length + 1 := by
      simp
    have hdl : dynNodesOfList (BodyNode.ifChain (some b.node_paths.length) c
          :: (({ b with node_paths := b.node_paths ++ [b.current_path ++ [idx % 256]] }
            : TemplateBody).assign_paths_inner (idx + 1) rest).2)
        = BodyNode.ifChain (some b.node_paths.length) c
          :: dynNodesOfList (({ b with node_paths := b.node_paths ++
            [b.current_path ++ [idx % 256]] } : TemplateBody).assign_paths_inner
              (idx + 1) rest).2 := by
      simp [dynNodesOfList]
    have hdc : dynAttrCountList (BodyNode.ifChain (some b.node_paths.length) c
          :: (({ b with node_paths := b.node_paths ++ [b.current_path ++ [idx % 256]] }
            : TemplateBody).assign_paths_inner (idx + 1) rest).2)
        = dynAttrCountList (({ b with node_paths := b.node_paths ++
            [b.current_path ++ [idx % 256]] } : TemplateBody).assign_paths_inner
              (idx + 1) rest).2 := by
      simp [dynAttrCountList]
    refine ⟨?_, ?_, ?_⟩
    · rw [hdl, hR1, hblen]
      simp [Nat.add_assoc, Nat.add_comm 1]
    · intro j n hj
      rw [hdl] at hj
      cases j with
      | zero =>
        rw [List.getElem?_cons_zero] at hj
        cases hj
        simp [BodyNode.dynIdxOf]
      | succ j' =>
        simp only [List.getElem?_cons_succ] at hj
        have := hR2 j' n hj
        rw [hblen] at this
        rw [this]
        congr 1
        omega
    · rw [hdc, hR3]
termination_by sizeOf nodes
decreasing_by
  all_goals simp_wf
  all_goals simp_arith

theorem assign_rt (nodes : List BodyNode) : ∀ (b : TemplateBody) (idx : Nat),
    childCountsSmall nodes = true → idx + nodes.length ≤ 256 →
    ∀ k p, b.node_paths.length ≤ k →
      (b.assign_paths_inner idx nodes).1.node_paths[k]? = some p →
      ∃ j t n m, p = b.current_path ++ j :: t ∧ idx ≤ j ∧
        (b.assign_paths_inner idx nodes).2[j - idx]? = some n ∧
        getDynNodeAux n t = some m ∧ m.dynIdxOf = some k := by
  match nodes with
  | [] =>
    intro b idx _ _ k p hk hp
    rw [TemplateBody.assign_paths_inner.eq_1] at hp
    rw [List.getElem?_eq_none hk] at hp
    cases hp
  | .element name key attrs merged children :: rest =>
    intro b idx hs hb k p hk hp
    have hmod : idx % 256 = idx := Nat.mod_eq_of_lt (by simp at hb; omega)
    simp only [childCountsSmall, Bool.and_eq_true, decide_eq_true_eq] at hs
    obtain ⟨⟨hclen, hsc⟩, hsr⟩ := hs
    rw [assign_step_element b idx name key attrs merged children rest] at hp ⊢
    simp only [] at hp ⊢
    obtain ⟨hA1, hA2, dA, hA3⟩ := assignElementAttrs_basic merged (b.pushIdx idx) 0
    obtain ⟨hK1, hK2, ⟨dK, hK3⟩, -⟩ :=
      assign_basic children ((b.pushIdx idx).assignElementAttrs 0 merged) 0
    obtain ⟨hR1, hR2, ⟨dR, hR3⟩, -⟩ :=
      assign_basic rest
        (((b.pushIdx idx).assignElementAttrs 0 merged).assign_paths_inner 0 children).1.popPath
        (idx + 1)
    rw [show (((b.pushIdx idx).assignElementAttrs 0 merged).assign_paths_inner 0
        children).1.popPath.node_paths
      = (((b.pushIdx idx).assignElementAttrs 0 merged).assign_paths_inner 0
        children).1.node_paths from rfl] at hR3
    by_cases hkc : k < (((b.pushIdx idx).assignElementAttrs 0 merged).assign_paths_inner 0
        children).1.node_paths.length
    · have hpk : (((b.pushIdx idx).assignElementAttrs 0 merged).assign_paths_inner 0
          children).1.node_paths[k]? = some p := by
        rw [hR3] at hp
        rwa [List.getElem?_append_left hkc] at hp
      have hkA : (((b.pushIdx idx).assignElementAttrs 0 merged)
          : TemplateBody).node_paths.length ≤ k := by
        have : (((b.pushIdx idx).assignElementAttrs 0 merged)
            : TemplateBody).node_paths = b.node_paths := hA2
        rw [this]
        exact hk
      obtain ⟨j, t, n, m, hpe, hj0, hn, hm, hdyn⟩ :=
        assign_rt children ((b.pushIdx idx).assignElementAttrs 0 merged) 0 hsc
          (by omega) k p hkA hpk
      refine ⟨idx, j :: t, .element name key attrs merged
        (((b.pushIdx idx).assignElementAttrs 0 merged).assign_paths_inner 0 children).2,
        m, ?_, Nat.le_refl idx, ?_, ?_, hdyn⟩
      · rw [hpe, hA1]
        rw [show (b.pushIdx idx).current_path = b.current_path ++ [idx % 256] from rfl, hmod]
        simp
      · rw [Nat.sub_self]
        exact List.getElem?_cons_zero
      · show getDynNodeAux (.element name key attrs merged
          (((b.pushIdx idx).assignElementAttrs 0 merged).assign_paths_inner 0 children).2)
          (j :: t) = some m
        unfold getDynNodeAux
        rw [show (BodyNode.element name key attrs merged
          (((b.pushIdx idx).assignElementAttrs 0 merged).assign_paths_inner 0
            children).2).childrenOf
          = (((b.pushIdx idx).assignElementAttrs 0 merged).assign_paths_inner 0 children).2
          from rfl]
        rw [List.get?_eq_getElem?]
        rw [show j - 0 = j from rfl] at hn
        rw [hn]
        exact hm
    · push_neg at hkc
      obtain ⟨j, t, n, m, hpe, hj1, hn, hm, hdyn⟩ :=
        assign_rt rest
          (((b.pushIdx idx).assignElementAttrs 0 merged).assign_paths_inner 0
            children).1.popPath (idx + 1) hsr (by simp at hb; omega) k p hkc hp
      refine ⟨j, t, n, m, ?_, by omega, ?_, hm, hdyn⟩
      · rw [hpe]
        rw [show ((((b.pushIdx idx).assignElementAttrs 0 merged).assign_paths_inner 0
            children).1.popPath).current_path
          = (((b.pushIdx idx).assignElementAttrs 0 merged).assign_paths_inner 0
            children).1.current_path.dropLast from rfl]
        rw [hK1, hA1]
        rw [show (b.pushIdx idx).current_path = b.current_path ++ [idx % 256] from rfl]
        rw [List.dropLast_concat]
      · have hsub : j - idx = (j - (idx + 1)) + 1 := by omega
        rw [hsub]
        rw [List.getElem?_cons_succ]
        exact hn
  | .text d input :: rest =>
    intro b idx hs hb k p hk hp
    simp only [childCountsSmall, Bool.and_eq_true] at hs
    obtain ⟨-, hsr⟩ := hs
    cases his : input.is_static with
    | true =>
      rw [assign_step_text_static b idx d input rest his] at hp ⊢
      obtain ⟨j, t, n, m, hpe, hj1, hn, hm, hdyn⟩ :=
        assign_rt rest b (idx + 1) hsr (by simp at hb; omega) k p hk hp
      refine ⟨j, t, n, m, hpe, by omega, ?_, hm, hdyn⟩
      have hsub : j - idx = (j - (idx + 1)) + 1 := by omega
      rw [hsub]
      rw [List.getElem?_cons_succ]
      exact hn
    | false =>
      have hmod : idx % 256 = idx := Nat.mod_eq_of_lt (by simp at hb; omega)
      rw [assign_step_text_dyn b idx d input rest his] at hp ⊢
      simp only [] at hp ⊢
      obtain ⟨hR1, hR2, ⟨dR, hR3⟩, -⟩ := assign_basic rest
        { b with node_paths := b.node_paths ++ [b.current_path ++ [idx % 256]] } (idx + 1)
      by_cases hk1 : k < b.node_paths.length + 1
      · have hkeq : k = b.node_paths.length := by omega
        subst hkeq
        rw [hR3] at hp
        rw [List.getElem?_append_left (by simp)] at hp
        rw [show ({ b with node_paths := b.node_paths ++ [b.current_path ++ [idx % 256]] }
            : TemplateBody).node_paths = b.node_paths ++ [b.current_path ++ [idx % 256]]
          from rfl] at hp
        rw [List.getElem?_concat_length] at hp
        cases hp
        refine ⟨idx, [], .text (some b.node_paths.length) input,
          .text (some b.node_paths.length) input, ?_, Nat.le_refl idx, ?_, rfl, rfl⟩
        · rw [hmod]
        · rw [Nat.sub_self]
          exact List.getElem?_cons_zero
      · obtain ⟨j, t, n, m, hpe, hj1, hn, hm, hdyn⟩ :=
          assign_rt rest
            { b with node_paths := b.node_paths ++ [b.current_path ++ [idx % 256]] }
            (idx + 1) hsr (by simp at hb; omega) k p (by simp; omega) hp
        refine ⟨j, t, n, m, hpe, by omega, ?_, hm, hdyn⟩
        have hsub : j - idx = (j - (idx + 1)) + 1 := by omega
        rw [hsub]
        rw [List.getElem?_cons_succ]
        exact hn
  | .rawExpr d e :: rest =>
    intro b idx hs hb k p hk hp
    simp only [childCountsSmall, Bool.and_eq_true] at hs
    obtain ⟨-, hsr⟩ := hs
    have hmod : idx % 256 = idx := Nat.mod_eq_of_lt (by simp at hb; omega)
    rw [assign_step_rawExpr b idx d e rest] at hp ⊢
    simp only [] at hp ⊢
    obtain ⟨hR1, hR2, ⟨dR, hR3⟩, -⟩ := assign_basic rest
      { b with node_paths := b.node_paths ++ [b.current_path ++ [idx % 256]] } (idx + 1)
    by_cases hk1 : k < b.node_paths.length + 1
    · have hkeq : k = b.node_paths.length := by omega
      subst hkeq
      rw [hR3] at hp
      rw [List.getElem?_append_left (by simp)] at hp
      rw [show ({ b with node_paths := b.node_paths ++ [b.current_path ++ [idx % 256]] }
          : TemplateBody).node_paths = b.node_paths ++ [b.current_path ++ [idx % 256]]
        from rfl] at hp
      rw [List.getElem?_concat_length] at hp
      cases hp
      refine ⟨idx, [], .rawExpr (some b.node_paths.length) e,
        .rawExpr (some b.node_paths.length) e, ?_, Nat.le_refl idx, ?_, rfl, rfl⟩
      · rw [hmod]
      · rw [Nat.sub_self]
        exact List.getElem?_cons_zero
    · obtain ⟨j, t, n, m, hpe, hj1, hn, hm, hdyn⟩ :=
        assign_rt rest
          { b with node_paths := b.node_paths ++ [b.current_path ++ [idx % 256]] }
          (idx + 1) hsr (by simp at hb; omega) k p (by simp; omega) hp
      refine ⟨j, t, n, m, hpe, by omega, ?_, hm, hdyn⟩
      have hsub : j - idx = (j - (idx + 1)) + 1 := by omega
      rw [hsub]
      rw [List.getElem?_cons_succ]
      exact hn
  | .forLoop d e body :: rest =>
    intro b idx hs hb k p hk hp
    simp only [childCountsSmall, Bool.and_eq_true] at hs
    obtain ⟨-, hsr⟩ := hs
    have hmod : idx % 256 = idx := Nat.mod_eq_of_lt (by simp at hb; omega)
    rw [assign_step_forLoop b idx d e body rest] at hp ⊢
    simp only [] at hp ⊢
    obtain ⟨hR1, hR2, ⟨dR, hR3⟩, -⟩ := assign_basic rest
      { b with node_paths := b.node_paths ++ [b.current_path ++ [idx % 256]] } (idx + 1)
    by_cases hk1 : k < b.node_paths.length + 1
    · have hkeq : k = b.node_paths.length := by omega
      subst hkeq
      rw [hR3] at hp
      rw [List.getElem?_append_left (by simp)] at hp
      rw [show ({ b with node_paths := b.node_paths ++ [b.current_path ++ [idx % 256]] }
          : TemplateBody).node_paths = b.node_paths ++ [b.current_path ++ [idx % 256]]
        from rfl] at hp
      rw [List.getElem?_concat_length] at hp
      cases hp
      refine ⟨idx, [], .forLoop (some b.node_paths.length) e body,
        .forLoop (some b.node_paths.length) e body, ?_, Nat.le_refl idx, ?_, rfl, rfl⟩
      · rw [hmod]
      · rw [Nat.sub_self]
        exact List.getElem?_cons_zero
    · obtain ⟨j, t, n, m, hpe, hj1, hn, hm, hdyn⟩ :=
        assign_rt rest
          { b with node_paths := b.node_paths ++ [b.current_path ++ [idx % 256]] }
          (idx + 1) hsr (by simp at hb; omega) k p (by simp; omega) hp
      refine ⟨j, t, n, m, hpe, by omega, ?_, hm, hdyn⟩
      have hsub : j - idx = (j - (idx + 1)) + 1 := by omega
      rw [hsub]
      rw [List.getElem?_cons_succ]
      exact hn
  | .component d fields children :: rest =>
    intro b idx hs hb k p hk hp
    simp only [childCountsSmall, Bool.and_eq_true] at hs
    obtain ⟨-, hsr⟩ := hs
    have hmod : idx % 256 = idx := Nat.mod_eq_of_lt (by simp at hb; omega)
    rw [assign_step_component b idx d fields children rest] at hp ⊢
    simp only [] at hp ⊢
    obtain ⟨hR1, hR2, ⟨dR, hR3⟩, -⟩ := assign_basic rest
      { b with node_paths := b.node_paths ++ [b.current_path ++ [idx % 256]] } (idx + 1)
    by_cases hk1 : k < b.node_paths.length + 1
    · have hkeq : k = b.node_paths.length := by omega
      subst hkeq
      rw [hR3] at hp
      rw [List.getElem?_append_left (by simp)] at hp
      rw [show ({ b with node_paths := b.node_paths ++ [b.current_path ++ [idx % 256]] }
          : TemplateBody).node_paths = b.node_paths ++ [b.current_path ++ [idx % 256]]
        from rfl] at hp
      rw [List.getElem?_concat_length] at hp
      cases hp
      refine ⟨idx, [], .component (some b.node_paths.length) fields children,
        .component (some b.node_paths.length) fields children, ?_, Nat.le_refl idx, ?_,
        rfl, rfl⟩
      · rw [hmod]
      · rw [Nat.sub_self]
        exact List.getElem?_cons_zero
    · obtain ⟨j, t, n, m, hpe, hj1, hn, hm, hdyn⟩ :=
        assign_rt rest
          { b with node_paths := b.node_paths ++ [b.current_path ++ [idx % 256]] }
          (idx + 1) hsr (by simp at hb; omega) k p (by simp; omega) hp
      refine ⟨j, t, n, m, hpe, by omega, ?_, hm, hdyn⟩
      have hsub : j - idx = (j - (idx + 1)) + 1 := by omega
      rw [hsub]
      rw [List.getElem?_cons_succ]
      exact hn
  | .ifChain d c :: rest =>
    intro b idx hs hb k p hk hp
    simp only [childCountsSmall, Bool.and_eq_true] at hs
    obtain ⟨-, hsr⟩ := hs
    have hmod : idx % 256 = idx := Nat.mod_eq_of_lt (by simp at hb; omega)
    rw [assign_step_ifChain b idx d c rest] at hp ⊢
    simp only [] at hp ⊢
    obtain ⟨hR1, hR2, ⟨dR, hR3⟩, -⟩ := assign_basic rest
      { b with node_paths := b.node_paths ++ [b.current_path ++ [idx % 256]] } (idx + 1)
    by_cases hk1 : k < b.node_paths.length + 1
    · have hkeq : k = b.node_paths.length := by omega
      subst hkeq
      rw [hR3] at hp
      rw [List.getElem?_append_left (by simp)] at hp
      rw [show ({ b with node_paths := b.node_paths ++ [b.current_path ++ [idx % 256]] }
          : TemplateBody).node_paths = b.node_paths ++ [b.current_path ++ [idx % 256]]
        from rfl] at hp
      rw [List.getElem?_concat_length] at hp
      cases hp
      refine ⟨idx, [], .ifChain (some b.node_paths.length) c,
        .ifChain (some b.node_paths.length) c, ?_, Nat.le_refl idx, ?_, rfl, rfl⟩
      · rw [hmod]
      · rw [Nat.sub_self]
        exact List.getElem?_cons_zero
    · obtain ⟨j, t, n, m, hpe, hj1, hn, hm, hdyn⟩ :=
        assign_rt rest
          { b with node_paths := b.node_paths ++ [b.current_path ++ [idx % 256]] }
          (idx + 1) hsr (by simp at hb; omega) k p (by simp; omega) hp
      refine ⟨j, t, n, m, hpe, by omega, ?_, hm, hdyn⟩
      have hsub : j - idx = (j - (idx + 1)) + 1 := by omega
      rw [hsub]
      rw [List.getElem?_cons_succ]
      exact hn
termination_by sizeOf nodes
decreasing_by
  all_goals simp_wf
  all_goals simp_arith

/-- C2: within one `from_nodes` body, node indices are dense and
zero-based in depth-first, left-to-right, pre-order traversal order —
the i-th dynamic node of the indexed roots carries slot index `i`, and
`node_paths` has exactly one entry per dynamic node; attribute indices
(positions of `attr_paths`) enjoy the same density, with exactly one
entry per dynamic merged attribute in traversal order. -/
theorem c2_dense_indices (nodes : List BodyNode) :
    (TemplateBody.from_nodes nodes).node_paths.length
      = (dynNodesOfList (TemplateBody.from_nodes nodes).roots).length ∧
    (∀ (j : Nat) (n : BodyNode),
      (dynNodesOfList (TemplateBody.from_nodes nodes).roots)[j]? = some n →
      n.dynIdxOf = some j) ∧
    (TemplateBody.from_nodes nodes).attr_paths.length
      = dynAttrCountList (TemplateBody.from_nodes nodes).roots := by
  obtain ⟨h1, h2, h3⟩ := assign_dyn nodes initialBody 0
  refine ⟨?_, ?_, ?_⟩
  · show (initialBody.assign_paths_inner 0 nodes).1.node_paths.length
      = (dynNodesOfList (initialBody.assign_paths_inner 0 nodes).2).length
    simpa [initialBody] using h1
  · intro j n hj
    have hj2 : (dynNodesOfList (initialBody.assign_paths_inner 0 nodes).2)[j]? = some n := hj
    have := h2 j n hj2
    simpa [initialBody] using this
  · show (initialBody.assign_paths_inner 0 nodes).1.attr_paths.length
      = dynAttrCountList (initialBody.assign_paths_inner 0 nodes).2
    simpa [initialBody] using h3

/-- C1 (amended): for bodies whose root list and every element child
list hold at most 256 siblings — so no path entry is truncated by the
`u8` cast — resolving `node_paths[k]` against the roots via
`get_dyn_node` yields a node whose written-back dynamic-slot index is
exactly `k`. -/
theorem c1_roundtrip_small (nodes : List BodyNode) (hsmall : smallBody nodes = true)
    (k : Nat) (p : List Nat)
    (hp : (TemplateBody.from_nodes nodes).node_paths[k]? = some p) :
    ∃ m, (TemplateBody.from_nodes nodes).get_dyn_node p = some m ∧
      m.dynIdxOf = some k := by
  simp only [smallBody, Bool.and_eq_true, decide_eq_true_eq] at hsmall
  obtain ⟨hlen, hcs⟩ := hsmall
  have hp2 : (initialBody.assign_paths_inner 0 nodes).1.node_paths[k]? = some p := hp
  obtain ⟨j, t, n, m, hpe, hj, hn, hm, hdyn⟩ :=
    assign_rt nodes initialBody 0 hcs (by omega) k p (Nat.zero_le k) hp2
  refine ⟨m, ?_, hdyn⟩
  rw [hpe]
  show (match (TemplateBody.from_nodes nodes).roots.get? j with
    | some node => getDynNodeAux node t
    | none => none) = some m
  have hroots : (TemplateBody.from_nodes nodes).roots.get? j = some n := by
    rw [List.get?_eq_getElem?]
    exact hn
  rw [hroots]
  exact hm

theorem from_nodes_raw_eval :
    TemplateBody.from_nodes [rawExprEx]
      = { roots := [BodyNode.rawExpr (some 0) ⟨7⟩], template_idx := 0, brace := none,
          implicit_key := none, node_paths := [[0]], attr_paths := [],
          current_path := [] } := by
  unfold TemplateBody.from_nodes
  simp only []
  rw [show ([rawExprEx] : List BodyNode) = [BodyNode.rawExpr none ⟨7⟩] from rfl]
  rw [assign_step_rawExpr]
  simp only []
  rw [TemplateBody.assign_paths_inner.eq_1]
  simp [initialBody]

/-- Witness for C1 at the single-root body `{ raw_expr }`. -/
theorem c1_roundtrip_small_witness :
    smallBody [rawExprEx] = true ∧
    ∃ m, (TemplateBody.from_nodes [rawExprEx]).get_dyn_node [0] = some m ∧
      m.dynIdxOf = some 0 :=
  ⟨by simp [smallBody, childCountsSmall, rawExprEx],
   c1_roundtrip_small [rawExprEx] (by simp [smallBody, childCountsSmall, rawExprEx]) 0 [0]
     (by rw [from_nodes_raw_eval]; simp)⟩

/-- Witness for C2 at the single-root body `{ raw_expr }`. -/
theorem c2_dense_indices_witness :
    (BodyNode.rawExpr (some 0) ⟨7⟩).dynIdxOf = some 0 :=
  (c2_dense_indices [rawExprEx]).2.1 0 (BodyNode.rawExpr (some 0) ⟨7⟩)
    (by rw [from_nodes_raw_eval]; simp [dynNodesOfList])

theorem assign_append (l1 : List BodyNode) : ∀ (l2 : List BodyNode) (b : TemplateBody)
    (idx : Nat),
    b.assign_paths_inner idx (l1 ++ l2)
      = (((b.assign_paths_inner idx l1).1.assign_paths_inner (idx + l1.length) l2).1,
         (b.assign_paths_inner idx l1).2
           ++ ((b.assign_paths_inner idx l1).1.assign_paths_inner (idx + l1.length) l2).2) := by
  induction l1 with
  | nil =>
    intro l2 b idx
    rw [TemplateBody.assign_paths_inner.eq_1]
    simp
  | cons node rest ih =>
    intro l2 b idx
    have harith : idx + (node :: rest).length = idx + 1 + rest.length := by
      simp
      omega
    cases node with
    | element name key attrs merged children =>
      rw [show ((BodyNode.element name key attrs merged children :: rest) ++ l2)
        = BodyNode.element name key attrs merged children :: (rest ++ l2) from rfl]
      rw [assign_step_element, assign_step_element]
      simp only []
      rw [ih, harith]
      simp
    | text d input =>
      cases his : input.is_static with
      | true =>
        rw [show ((BodyNode.text d input :: rest) ++ l2)
          = BodyNode.text d input :: (rest ++ l2) from rfl]
        rw [assign_step_text_static b idx d input (rest ++ l2) his,
          assign_step_text_static b idx d input rest his]
        rw [ih, harith]
        simp
      | false =>
        rw [show ((BodyNode.text d input :: rest) ++ l2)
          = BodyNode.text d input :: (rest ++ l2) from rfl]
        rw [assign_step_text_dyn b idx d input (rest ++ l2) his,
          assign_step_text_dyn b idx d input rest his]
        simp only []
        rw [ih, harith]
        simp
    | rawExpr d e =>
      rw [show ((BodyNode.rawExpr d e :: rest) ++ l2)
        = BodyNode.rawExpr d e :: (rest ++ l2) from rfl]
      rw [assign_step_rawExpr b idx d e (rest ++ l2), assign_step_rawExpr b idx d e rest]
      simp only []
      rw [ih, harith]
      simp
    | forLoop d e body =>
      rw [show ((BodyNode.forLoop d e body :: rest) ++ l2)
        = BodyNode.forLoop d e body :: (rest ++ l2) from rfl]
      rw [assign_step_forLoop b idx d e body (rest ++ l2),
        assign_step_forLoop b idx d e body rest]
      simp only []
      rw [ih, harith]
      simp
    | component d fields children =>
      rw [show ((BodyNode.component d fields children :: rest) ++ l2)
        = BodyNode.component d fields children :: (rest ++ l2) from rfl]
      rw [assign_step_component b idx d fields children (rest ++ l2),
        assign_step_component b idx d fields children rest]
      simp only []
      rw [ih, harith]
      simp
    | ifChain d c =>
      rw [show ((BodyNode.ifChain d c :: rest) ++ l2)
        = BodyNode.ifChain d c :: (rest ++ l2) from rfl]
      rw [assign_step_ifChain b idx d c (rest ++ l2), assign_step_ifChain b idx d c rest]
      simp only []
      rw [ih, harith]
      simp

theorem assign_replicate_static (n : Nat) : ∀ (b : TemplateBody) (idx : Nat),
    b.assign_paths_inner idx (List.replicate n staticTextEx)
      = (b, List.replicate n staticTextEx) := by
  induction n with
  | zero =>
    intro b idx
    rw [List.replicate_zero, TemplateBody.assign_paths_inner.eq_1]
  | succ m ih =>
    intro b idx
    rw [List.replicate_succ]
    rw [show b.assign_paths_inner idx (staticTextEx :: List.replicate m staticTextEx)
      = b.assign_paths_inner idx (BodyNode.text none ⟨[.literal ("item")]⟩
          :: List.replicate m staticTextEx) from rfl]
    rw [assign_step_text_static b idx none ⟨[.literal ("item")]⟩ _ (by rfl)]
    rw [ih]
    rfl

theorem all_dropLast {α : Type} (l : List α) (f : α → Bool) (h : l.all f = true) :
    l.dropLast.all f = true := by
  rw [List.all_eq_true] at h ⊢
  intro x hx
  exact h x (List.mem_of_mem_dropLast hx)

theorem assignElementAttrs_bytes (attrs : List AttributeType) :
    ∀ (b : TemplateBody) (ai : Nat),
    b.current_path.all (fun e => decide (e < 256)) = true →
    (b.attr_paths.all fun p => p.all fun e => decide (e < 256)) = true →
    ((b.assignElementAttrs ai attrs).attr_paths.all fun p =>
      p.all fun e => decide (e < 256)) = true := by
  induction attrs with
  | nil =>
    intro b ai h1 h2
    simpa [TemplateBody.assignElementAttrs] using h2
  | cons attr rest ih =>
    intro b ai h1 h2
    cases hs : attr.is_static_str_literal with
    | true =>
      have hstep : b.assignElementAttrs ai (attr :: rest)
          = b.assignElementAttrs (ai + 1) rest := by
        simp [TemplateBody.assignElementAttrs, hs]
      rw [hstep]
      exact ih b (ai + 1) h1 h2
    | false =>
      have hstep : b.assignElementAttrs ai (attr :: rest)
          = (b.assign_attr_idx ai).assignElementAttrs (ai + 1) rest := by
        simp [TemplateBody.assignElementAttrs, hs]
      rw [hstep]
      apply ih
      · exact h1
      · show ((b.attr_paths ++ [b.current_path ++ [ai % 256]]).all fun p =>
          p.all fun e => decide (e < 256)) = true
        rw [List.all_append]
        rw [h2]
        simp [List.all_append, h1]
        omega

theorem assign_bytes (nodes : List BodyNode) : ∀ (b : TemplateBody) (idx : Nat),
    b.current_path.all (fun e => decide (e < 256)) = true →
    (b.node_paths.all fun p => p.all fun e => decide (e < 256)) = true →
    (b.attr_paths.all fun p => p.all fun e => decide (e < 256)) = true →
    ((b.assign_paths_inner idx nodes).1.node_paths.all fun p =>
        p.all fun e => decide (e < 256)) = true ∧
    ((b.assign_paths_inner idx nodes).1.attr_paths.all fun p =>
        p.all fun e => decide (e < 256)) = true := by
  match nodes with
  | [] =>
    intro b idx h1 h2 h3
    rw [TemplateBody.assign_paths_inner.eq_1]
    exact ⟨h2, h3⟩
  | .element name key attrs merged children :: rest =>
    intro b idx h1 h2 h3
    rw [assign_step_element]
    simp only []
    have hcp : ((b.pushIdx idx).current_path.all fun e => decide (e < 256)) = true := by
      show ((b.current_path ++ [idx % 256]).all fun e => decide (e < 256)) = true
      rw [List.all_append, h1]
      simp
      omega
    obtain ⟨hA1, hA2, dA, hA3⟩ := assignElementAttrs_basic merged (b.pushIdx idx) 0
    have hbA_ap := assignElementAttrs_bytes merged (b.pushIdx idx) 0 hcp h3
    have hbA_np : (((b.pushIdx idx).assignElementAttrs 0 merged).node_paths.all fun p =>
        p.all fun e => decide (e < 256)) = true := by
      rw [hA2]
      exact h2
    have hbA_cp : (((b.pushIdx idx).assignElementAttrs 0 merged).current_path.all
        fun e => decide (e < 256)) = true := by
      rw [hA1]
      exact hcp
    obtain ⟨hK_np, hK_ap⟩ := assign_bytes children
      ((b.pushIdx idx).assignElementAttrs 0 merged) 0 hbA_cp hbA_np hbA_ap
    obtain ⟨hK1, -, -, -⟩ :=
      assign_basic children ((b.pushIdx idx).assignElementAttrs 0 merged) 0
    have hpop_cp : ((((b.pushIdx idx).assignElementAttrs 0 merged).assign_paths_inner 0
        children).1.popPath.current_path.all fun e => decide (e < 256)) = true := by
      show ((((b.pushIdx idx).assignElementAttrs 0 merged).assign_paths_inner 0
        children).1.current_path.dropLast.all fun e => decide (e < 256)) = true
      apply all_dropLast
      rw [hK1]
      exact hbA_cp
    exact assign_bytes rest
      (((b.pushIdx idx).assignElementAttrs 0 merged).assign_paths_inner 0
        children).1.popPath (idx + 1) hpop_cp hK_np hK_ap
  | .text d input :: rest =>
    intro b idx h1 h2 h3
    cases his : input.is_static with
    | true =>
      rw [assign_step_text_static b idx d input rest his]
      exact assign_bytes rest b (idx + 1) h1 h2 h3
    | false =>
      rw [assign_step_text_dyn b idx d input rest his]
      simp only []
      refine assign_bytes rest _ (idx + 1) h1 ?_ h3
      show ((b.node_paths ++ [b.current_path ++ [idx % 256]]).all fun p =>
        p.all fun e => decide (e < 256)) = true
      rw [List.all_append, h2]
      simp [List.all_append, h1]
      omega
  | .rawExpr d e :: rest =>
    intro b idx h1 h2 h3
    rw [assign_step_rawExpr b idx d e rest]
    simp only []
    refine assign_bytes rest _ (idx + 1) h1 ?_ h3
    show ((b.node_paths ++ [b.current_path ++ [idx % 256]]).all fun p =>
      p.all fun e => decide (e < 256)) = true
    rw [List.all_append, h2]
    simp [List.all_append, h1]
    omega
  | .forLoop d e body :: rest =>
    intro b idx h1 h2 h3
    rw [assign_step_forLoop b idx d e body rest]
    simp only []
    refine assign_bytes rest _ (idx + 1) h1 ?_ h3
    show ((b.node_paths ++ [b.current_path ++ [idx % 256]]).all fun p =>
      p.all fun e => decide (e < 256)) = true
    rw [List.all_append, h2]
    simp [List.all_append, h1]
    omega
  | .component d fields children :: rest =>
    intro b idx h1 h2 h3
    rw [assign_step_component b idx d fields children rest]
    simp only []
    refine assign_bytes rest _ (idx + 1) h1 ?_ h3
    show ((b.node_paths ++ [b.current_path ++ [idx % 256]]).all fun p =>
      p.all fun e => decide (e < 256)) = true
    rw [List.all_append, h2]
    simp [List.all_append, h1]
    omega
  | .ifChain d c :: rest =>
    intro b idx h1 h2 h3
    rw [assign_step_ifChain b idx d c rest]
    simp only []
    refine assign_bytes rest _ (idx + 1) h1 ?_ h3
    show ((b.node_paths ++ [b.current_path ++ [idx % 256]]).all fun p =>
      p.all fun e => decide (e < 256)) = true
    rw [List.all_append, h2]
    simp [List.all_append, h1]
    omega
termination_by sizeOf nodes
decreasing_by
  all_goals simp_wf
  all_goals simp_arith

/-- C4 (amended): compilation never fails on oversized or deep trees —
`from_nodes` is total, and every entry of every recorded node path and
attribute path is stored as `idx as u8`, i.e. reduced modulo 256, so
every stored entry fits in a byte and sibling positions at or beyond
256 silently wrap around instead of failing. -/
theorem c4_paths_bytes (nodes : List BodyNode) :
    pathsAreBytes (TemplateBody.from_nodes nodes) = true := by
  obtain ⟨h1, h2⟩ := assign_bytes nodes initialBody 0 rfl rfl rfl
  show (((initialBody.assign_paths_inner 0 nodes).1.node_paths
      ++ (initialBody.assign_paths_inner 0 nodes).1.attr_paths).all fun p =>
        p.all fun e => decide (e < 256)) = true
  rw [List.all_append, h1, h2]
  rfl

set_option maxRecDepth 4096 in
theorem from_nodes_bigNodes_eval :
    TemplateBody.from_nodes bigNodes
      = { roots := List.replicate 256 staticTextEx ++ [BodyNode.rawExpr (some 0) ⟨7⟩],
          template_idx := 0, brace := none, implicit_key := none,
          node_paths := [[0]], attr_paths := [], current_path := [] } := by
  unfold TemplateBody.from_nodes
  simp only []
  rw [show (bigNodes : List BodyNode)
    = List.replicate 256 staticTextEx ++ [BodyNode.rawExpr none ⟨7⟩] from rfl]
  rw [assign_append]
  rw [assign_replicate_static]
  rw [assign_step_rawExpr]
  simp only []
  rw [TemplateBody.assign_paths_inner.eq_1]
  simp [initialBody, List.length_replicate, Nat.mod_self]

set_option maxRecDepth 4096 in
/-- C1 counterexample: in a body of 257 siblings whose only dynamic node
sits at position 256, the recorded path is truncated by the `u8` cast to
`[0]`; resolving `node_paths[0] = [0]` via `get_dyn_node` returns the
static text at position 0 — a node whose slot cell was never written —
so the round trip of the claim fails on this `from_nodes` body. -/
theorem c1_roundtrip_cex :
    (TemplateBody.from_nodes bigNodes).node_paths[0]? = some [0] ∧
    (TemplateBody.from_nodes bigNodes).get_dyn_node [0]
      = some (BodyNode.text none ⟨[Segment.literal ("item")]⟩) ∧
    (BodyNode.text none ⟨[Segment.literal ("item")]⟩).dynIdxOf = none := by
  rw [from_nodes_bigNodes_eval]
  refine ⟨by simp, ?_, rfl⟩
  show (match (List.replicate 256 staticTextEx
      ++ [BodyNode.rawExpr (some 0) ⟨7⟩]).get? 0 with
    | some node => getDynNodeAux node []
    | none => none) = some (BodyNode.text none ⟨[Segment.literal ("item")]⟩)
  rw [List.get?_eq_getElem?]
  rw [List.getElem?_append_left (by simp)]
  rw [List.getElem?_replicate]
  simp [staticTextEx, getDynNodeAux]

set_option maxRecDepth 4096 in
/-- C4 counterexample: a root list of 257 siblings (2 more than 255)
compiles without any failure, and the single recorded node path is
`[0]` — the sibling position 256 silently truncated to a byte — rather
than a loud compile-time error. -/
theorem c4_truncation_cex :
    bigNodes.length = 257 ∧
    (TemplateBody.from_nodes bigNodes).node_paths = [[0]] := by
  refine ⟨by simp [bigNodes], ?_⟩
  rw [from_nodes_bigNodes_eval]

theorem implicitKey_of_length_ne_one (b : TemplateBody) (h : b.roots.length ≠ 1) :
    b.implicitKey = none := by
  unfold TemplateBody.implicitKey
  cases hr : b.roots.head? with
  | none => rfl
  | some node => cases node <;> simp [h]

/-- C9: the implicit key of a body is exactly the key of its sole root —
the `key` field when that root is an element, the value of the explicit
`key` component field when it is a component — and `none` in every other
shape: zero roots, two or more roots, or a sole root of any other node
kind (modelled from the spec for `Component::key`). -/
theorem c9_implicit_key (b : TemplateBody) :
    b.implicitKey =
      (match b.roots with
       | [BodyNode.element _ key _ _ _] => key
       | [BodyNode.component _ fields _] => componentKey fields
       | _ => none) := by
  match hr : b.roots with
  | [] => simp [TemplateBody.implicitKey, hr]
  | [x] => cases x <;> simp [TemplateBody.implicitKey, hr]
  | x :: y :: rest => cases x <;> simp [TemplateBody.implicitKey, hr]

theorem from_nodes_mismatch_eval :
    TemplateBody.from_nodes [mismatchEl]
      = { roots := [mismatchEl], template_idx := 0, brace := none,
          implicit_key := none, node_paths := [], attr_paths := [[0, 1]],
          current_path := [] } := by
  unfold TemplateBody.from_nodes
  simp only []
  rw [show ([mismatchEl] : List BodyNode)
    = BodyNode.element (.ident ("div")) none [classA, classB, idDyn]
        (mergeAttributes [classA, classB, idDyn]) [] :: [] from rfl]
  rw [assign_step_element]
  simp only []
  rw [TemplateBody.assign_paths_inner.eq_1]
  rw [TemplateBody.assign_paths_inner.eq_1]
  rfl

/-- C3: refuted on the element `div { class: "a", class: "b",
id: "node-{node_id}" }`.  The indexer records the attribute path
`[0, 1]` for the dynamic `id` attribute — offset `1` in the *merged*
attribute list — but `get_dyn_attr` resolves that offset against the
element's *raw* attribute list, yielding the second `class` literal: a
static attribute, not the classified dynamic one. -/
theorem c3_attr_path_mismatch :
    (TemplateBody.from_nodes [mismatchEl]).attr_paths = [[0, 1]] ∧
    (TemplateBody.from_nodes [mismatchEl]).get_dyn_attr [0, 1] = some classB ∧
    classB.is_static_str_literal = true ∧
    (mergeAttributes [classA, classB, idDyn]).get? 1 = some idDyn ∧
    idDyn.is_static_str_literal = false ∧
    ¬ (TemplateBody.from_nodes [mismatchEl]).get_dyn_attr [0, 1] = some idDyn := by
  rw [from_nodes_mismatch_eval]
  refine ⟨rfl, rfl, rfl, by decide, rfl, ?_⟩
  intro h
  have h2 : (some classB : Option AttributeType) = some idDyn := by
    rw [← h]
    rfl
  exact absurd (Option.some.inj h2) (by decide)
